import Mathlib

/-!
Verification development for the `opencode-blackbox` redaction engine
(`src/redact.ts`, `src/ast.ts`).

Texts are modelled as `List Char` (`JStr`); a file is split into lines on
`'\n'` exactly as `text.split('\n')` does in JS, edits are applied to the
line array, and the array is rejoined with `'\n'`.  The ts-morph parser is
external to the repository: its output is modelled by `ParsedFile`, which
carries, for each syntax-kind list that `redactFile` iterates over
(`getDescendantsOfKind`), the position and modifier data that the source
reads off each node.  All line and column numbers are the 1-based values
returned by ts-morph (`getStartLineNumber`, `getLineAndColumnAtPos`), hence
always ≥ 1 for real parser output.
-/

namespace Blackbox

abbrev JStr := List Char

/-- JS `\s` test, restricted to the Latin-1 whitespace characters (the
claims only involve ASCII source text). -/
def isJsWhitespace (c : Char) : Bool :=
  c = ' ' || c = '\t' || c = '\n' || c = '\r' || c = '\x0b' || c = '\x0c' || c = '\xa0'

/-- JS `str.trimEnd()`. -/
def jsTrimEnd (s : JStr) : JStr :=
  (s.reverse.dropWhile isJsWhitespace).reverse

/-- JS `str.trimStart()`. -/
def jsTrimStart (s : JStr) : JStr :=
  s.dropWhile isJsWhitespace

/-- JS `str.match(/^\s*/)?.[0] ?? ''`: the leading-whitespace prefix. -/
def leadingWhitespace (s : JStr) : JStr :=
  s.takeWhile isJsWhitespace

/-- `text.split('\n')`: always returns at least one line; the lines carry
no `'\n'`. -/
def splitLines : JStr → List JStr
  | [] => [[]]
  | c :: rest =>
    if c = '\n' then [] :: splitLines rest
    else
      match splitLines rest with
      | [] => [[c]]
      | l :: ls => (c :: l) :: ls

/-- `lines.join('\n')`. -/
def joinLines : List JStr → JStr
  | [] => []
  | [l] => l
  | l :: ls => l ++ '\n' :: joinLines ls

/-- Number of lines of a text, i.e. `text.split('\n').length`. -/
def lineCount (t : JStr) : Nat := (splitLines t).length

/-- JS `lines[i] ?? ''` where `i : Int` may be negative (then the read is a
missing property and yields `undefined`, hence `''`). -/
def jsGetLine (lines : List JStr) (i : Int) : JStr :=
  if i < 0 then [] else (lines.get? i.toNat).getD []

/-- JS `lines[i] = v` on an array: negative `i` sets a plain property (the
array is unchanged); `i` beyond the end extends the array, the holes
reading back as `''` once joined. -/
def jsSetLine (lines : List JStr) (i : Int) (v : JStr) : List JStr :=
  if i < 0 then lines
  else if i.toNat < lines.length then lines.set i.toNat v
  else lines ++ List.replicate (i.toNat - lines.length) [] ++ [v]

/-- JS `Array.prototype.slice(a, b)` with possibly negative bounds. -/
def jsArraySlice (xs : List α) (a b : Int) : List α :=
  let len : Int := xs.length
  let na : Int := if a < 0 then max (len + a) 0 else min a len
  let nb : Int := if b < 0 then max (len + b) 0 else min b len
  (xs.drop na.toNat).take (nb - na).toNat

/-- JS `str.indexOf(ch)`, as `none` instead of `-1`. -/
def jsIndexOfChar (c : Char) (s : JStr) : Option Nat :=
  s.findIdx? (· = c)

/-- JS `str.indexOf(sub)`, as `none` instead of `-1`. -/
def jsIndexOfSub (needle : JStr) : JStr → Option Nat
  | [] => if needle.isEmpty then some 0 else none
  | c :: rest =>
    if needle.isPrefixOf (c :: rest) then some 0
    else (jsIndexOfSub needle rest).map (· + 1)

/-- `export const hiddenLine = '// implementation hidden'`. -/
def hiddenLine : JStr := "// implementation hidden".toList

/-- `export const hiddenInline = '/* implementation hidden */'`. -/
def hiddenInline : JStr := "/* implementation hidden */".toList

/-! Edit shapes, as in `src/redact.ts`. -/

structure InlineEdit where
  line : Nat
  start : Nat
  «end» : Nat
  text : JStr
  deriving Repr, DecidableEq

structure LineEdit where
  line : Nat
  text : JStr
  deriving Repr, DecidableEq

structure BlockEdit where
  start : Nat
  «end» : Nat
  line : Nat
  priority : Nat
  deriving Repr, DecidableEq

structure LineWindow where
  start : Nat
  «end» : Nat
  deriving Repr, DecidableEq

/-- The three edit lists a planning step appends to (`inline`, `replace`,
`blocks` in `redactFile`). -/
structure EditPlan where
  inline : List InlineEdit
  replace : List LineEdit
  blocks : List BlockEdit
  deriving Repr, DecidableEq

def EditPlan.empty : EditPlan := ⟨[], [], []⟩

def EditPlan.append (a b : EditPlan) : EditPlan :=
  ⟨a.inline ++ b.inline, a.replace ++ b.replace, a.blocks ++ b.blocks⟩

/-! The parser's view of a file.  ts-morph is external: `ParsedFile` holds,
for each `getDescendantsOfKind` list that `redactFile` walks, exactly the
data the source reads off the node.  Positions are 1-based. -/

/-- A `getLineAndColumnAtPos` result. -/
structure Pos where
  line : Nat
  column : Nat
  deriving Repr, DecidableEq

/-- A `Block` body node: `getStartLineNumber()`, `getEndLineNumber()`,
and the positions `lineCol(getStart() + 1)` (just after the `'\x7b'`) and
`lineCol(getEnd() - 1)` (at the `'\x7d'`) that `redactBlock` uses in its
single-line branch. -/
structure BodySpan where
  startLine : Nat
  endLine : Nat
  innerStart : Pos
  innerEnd : Pos
  deriving Repr, DecidableEq

/-- An expression node's `lineCol(getStart())` and `lineCol(getEnd())`,
as used by `redactExpression`. -/
structure ExprSpan where
  startPos : Pos
  endPos : Pos
  deriving Repr, DecidableEq

/-- `FunctionDeclaration` node: `isExported()` and `getBody()`. -/
structure FunctionDeclarationNode where
  isExported : Bool
  body : Option BodySpan
  deriving Repr, DecidableEq

/-- A `MethodDeclaration` / `Constructor` / `GetAccessor` / `SetAccessor`
node: what `isExportedClassMember` and `getBody()` read.
`parentClassExported = none` models `getParentIfKind(ClassDeclaration)`
returning `undefined`; `some e` carries the parent class's `isExported()`. -/
structure ClassMemberNode where
  parentClassExported : Option Bool
  hasPrivateKeyword : Bool
  hasProtectedKeyword : Bool
  body : Option BodySpan
  deriving Repr, DecidableEq

/-- A `PropertyDeclaration` node: member data plus
`getFirstChildByKind(EqualsToken)` start position and the initializer's
`lineCol(getEnd())`, as `redactInitializer` reads them.  `initEnd = none`
models `getInitializer()` returning `undefined`. -/
structure PropertyDeclarationNode where
  parentClassExported : Option Bool
  hasPrivateKeyword : Bool
  hasProtectedKeyword : Bool
  initEnd : Option Pos
  equalsPos : Option Pos
  deriving Repr, DecidableEq

/-- The expression under an `ExportAssignment`, with the data the
`ExportAssignment` loop reads: its kind, `getFirstChildByKind(Block)`,
and its own span (for `redactExpression` in the block-less arrow case). -/
inductive ExportAssignExpr where
  | arrow (block : Option BodySpan) (span : ExprSpan)
  | functionExpr (block : Option BodySpan)
  | otherKind
  deriving Repr, DecidableEq

structure ExportAssignmentNode where
  expr : Option ExportAssignExpr
  deriving Repr, DecidableEq

/-- A `VariableDeclaration` node: the initializer data
(`redactVariableInitializer` reads the `EqualsToken` start and the
initializer end) and what `isExportedVariable` reads of the enclosing
`VariableStatement` (`none` when the parent chain is not
`VariableDeclarationList`/`VariableStatement`). -/
structure VariableStatementInfo where
  isExported : Bool
  hasExportKeywordModifier : Bool
  deriving Repr, DecidableEq

structure VariableDeclarationNode where
  statement : Option VariableStatementInfo
  initEnd : Option Pos
  equalsPos : Option Pos
  deriving Repr, DecidableEq

/-- An `ArrowFunction` node: `getBody()` always exists and is either a
`Block` or an expression; `parentVariable` is
`getParentIfKind(VariableDeclaration)`. -/
inductive ArrowBody where
  | block (b : BodySpan)
  | expr (e : ExprSpan)
  deriving Repr, DecidableEq

structure ArrowFunctionNode where
  parentVariable : Option VariableDeclarationNode
  body : ArrowBody
  deriving Repr, DecidableEq

/-- A `FunctionExpression` node. -/
structure FunctionExpressionNode where
  parentVariable : Option VariableDeclarationNode
  body : Option BodySpan
  deriving Repr, DecidableEq

/-- Everything `redactFile` asks the tree for, kind by kind, each list in
the document order `getDescendantsOfKind` returns. -/
structure ParsedFile where
  functionDeclarations : List FunctionDeclarationNode
  methodDeclarations : List ClassMemberNode
  constructors : List ClassMemberNode
  getAccessors : List ClassMemberNode
  setAccessors : List ClassMemberNode
  propertyDeclarations : List PropertyDeclarationNode
  exportAssignments : List ExportAssignmentNode
  variableDeclarations : List VariableDeclarationNode
  arrowFunctions : List ArrowFunctionNode
  functionExpressions : List FunctionExpressionNode
  deriving Repr, DecidableEq

def ParsedFile.empty : ParsedFile := ⟨[], [], [], [], [], [], [], [], [], []⟩

/-! Visibility / export classification, from `src/redact.ts`. -/

/-- `isExportedClassMember` (redact.ts): parent is an exported class
declaration and the member carries neither `private` nor `protected`. -/
def isExportedClassMember (parentClassExported : Option Bool)
    (hasPrivateKeyword hasProtectedKeyword : Bool) : Bool :=
  match parentClassExported with
  | none => false
  | some exported =>
    if !exported then false
    else if hasPrivateKeyword then false
    else !hasProtectedKeyword

/-- `isExportedVariable` (redact.ts). -/
def isExportedVariable (node : VariableDeclarationNode) : Bool :=
  match node.statement with
  | none => false
  | some statement =>
    if statement.isExported then true else statement.hasExportKeywordModifier

/-- `isExportedArrowFunction` (redact.ts). -/
def isExportedArrowFunction (node : ArrowFunctionNode) : Bool :=
  match node.parentVariable with
  | none => false
  | some parent => isExportedVariable parent

/-- `isExportedFunctionExpression` (redact.ts). -/
def isExportedFunctionExpression (node : FunctionExpressionNode) : Bool :=
  match node.parentVariable with
  | none => false
  | some parent => isExportedVariable parent

/-! The per-node planners, from `src/redact.ts`.  Each returns the edits it
pushes, in push order. -/

/-- `redactBlock` (redact.ts): single-line body → inline edit over the
interior; two-line body → line replace inserting ` // implementation
hidden` after the first `'\x7b'` of the opening line (appended at the end
of the line when the line has none); otherwise a block edit over the
interior lines. -/
def redactBlock (body : BodySpan) (lines : List JStr) (priority : Nat) : EditPlan :=
  let startLine := body.startLine
  let endLine := body.endLine
  if startLine = endLine then
    let start := body.innerStart
    let «end» := body.innerEnd
    ⟨[⟨start.line, start.column, «end».column, ' ' :: hiddenInline ++ [' ']⟩], [], []⟩
  else if startLine + 1 = endLine then
    let line := jsGetLine lines ((startLine : Int) - 1)
    let insert :=
      match jsIndexOfChar '\x7b' line with
      | none => line ++ ' ' :: hiddenLine
      | some braceIndex =>
        line.take (braceIndex + 1) ++ ' ' :: hiddenLine ++ line.drop (braceIndex + 1)
    ⟨[], [⟨startLine, insert⟩], []⟩
  else
    ⟨[], [], [⟨startLine + 1, endLine - 1, startLine + 1, priority⟩]⟩

/-- `redactExpression` (redact.ts). -/
def redactExpression (node : ExprSpan) (priority : Nat) : EditPlan :=
  let start := node.startPos
  let «end» := node.endPos
  if start.line = «end».line then
    ⟨[⟨start.line, start.column, «end».column, hiddenInline⟩], [], []⟩
  else
    ⟨[], [], [⟨start.line, «end».line, start.line, priority⟩]⟩

/-- `redactInitializer` (redact.ts), for property declarations. -/
def redactInitializer (node : PropertyDeclarationNode) (lines : List JStr)
    (priority : Nat) : EditPlan :=
  match node.initEnd with
  | none => EditPlan.empty
  | some initEnd =>
    match node.equalsPos with
    | none => EditPlan.empty
    | some start =>
      let «end» := initEnd
      if start.line = «end».line then
        ⟨[⟨start.line, start.column, «end».column, '=' :: ' ' :: hiddenInline⟩], [], []⟩
      else
        let first := jsGetLine lines ((start.line : Int) - 1)
        let prefixText := jsTrimEnd (first.take (start.column - 1))
        let last := jsGetLine lines (((«end».line : Int)) - 1)
        let indent := leadingWhitespace last
        ⟨[],
          [⟨start.line, prefixText ++ '=' :: ' ' :: hiddenInline⟩,
           ⟨«end».line, indent ++ jsTrimStart (last.drop («end».column - 1))⟩],
          [⟨start.line + 1, «end».line - 1, start.line + 1, priority⟩]⟩

/-- `redactVariableInitializer` (redact.ts): textually the same logic as
`redactInitializer`, over a `VariableDeclaration`. -/
def redactVariableInitializer (node : VariableDeclarationNode) (lines : List JStr)
    (priority : Nat) : EditPlan :=
  match node.initEnd with
  | none => EditPlan.empty
  | some initEnd =>
    match node.equalsPos with
    | none => EditPlan.empty
    | some start =>
      let «end» := initEnd
      if start.line = «end».line then
        ⟨[⟨start.line, start.column, «end».column, '=' :: ' ' :: hiddenInline⟩], [], []⟩
      else
        let first := jsGetLine lines ((start.line : Int) - 1)
        let prefixText := jsTrimEnd (first.take (start.column - 1))
        let last := jsGetLine lines (((«end».line : Int)) - 1)
        let indent := leadingWhitespace last
        ⟨[],
          [⟨start.line, prefixText ++ '=' :: ' ' :: hiddenInline⟩,
           ⟨«end».line, indent ++ jsTrimStart (last.drop («end».column - 1))⟩],
          [⟨start.line + 1, «end».line - 1, start.line + 1, priority⟩]⟩

/-! The selection loops of `redactFile`, one planning function per
`getDescendantsOfKind` loop. -/

def planList (f : α → EditPlan) (nodes : List α) : EditPlan :=
  nodes.foldl (fun acc node => acc.append (f node)) EditPlan.empty

/-- The `FunctionDeclaration` loop. -/
def planFunctionDeclaration (lines : List JStr) (node : FunctionDeclarationNode) : EditPlan :=
  if !node.isExported then EditPlan.empty
  else
    match node.body with
    | none => EditPlan.empty
    | some body => redactBlock body lines 3

/-- The `MethodDeclaration` / `Constructor` / accessor loops (identical). -/
def planClassMember (lines : List JStr) (node : ClassMemberNode) : EditPlan :=
  if !isExportedClassMember node.parentClassExported
      node.hasPrivateKeyword node.hasProtectedKeyword then EditPlan.empty
  else
    match node.body with
    | none => EditPlan.empty
    | some body => redactBlock body lines 3

/-- The `PropertyDeclaration` loop. -/
def planPropertyDeclaration (lines : List JStr) (node : PropertyDeclarationNode) : EditPlan :=
  if !isExportedClassMember node.parentClassExported
      node.hasPrivateKeyword node.hasProtectedKeyword then EditPlan.empty
  else
    match node.initEnd with
    | none => EditPlan.empty
    | some _ => redactInitializer node lines 3

/-- The `ExportAssignment` loop. -/
def planExportAssignment (lines : List JStr) (node : ExportAssignmentNode) : EditPlan :=
  match node.expr with
  | none => EditPlan.empty
  | some (.arrow (some body) _) => redactBlock body lines 3
  | some (.arrow none span) => redactExpression span 3
  | some (.functionExpr (some body)) => redactBlock body lines 3
  | some (.functionExpr none) => EditPlan.empty
  | some .otherKind => EditPlan.empty

/-- The `VariableDeclaration` loop. -/
def planVariableDeclaration (lines : List JStr) (node : VariableDeclarationNode) : EditPlan :=
  match node.initEnd with
  | none => EditPlan.empty
  | some _ =>
    if !isExportedVariable node then EditPlan.empty
    else redactVariableInitializer node lines 2

/-- The `ArrowFunction` loop. -/
def planArrowFunction (lines : List JStr) (node : ArrowFunctionNode) : EditPlan :=
  if !isExportedArrowFunction node then EditPlan.empty
  else
    match node.body with
    | .block b => redactBlock b lines 1
    | .expr e => redactExpression e 1

/-- The `FunctionExpression` loop. -/
def planFunctionExpression (lines : List JStr) (node : FunctionExpressionNode) : EditPlan :=
  if !isExportedFunctionExpression node then EditPlan.empty
  else
    match node.body with
    | none => EditPlan.empty
    | some body => redactBlock body lines 2

/-- All edits `redactFile` plans before calling `applyEdits`, in the
source's loop and push order.  (In the source the planners push onto
shared arrays; the arrays are only read by the planners, never written
before `applyEdits`, so collecting the pushes is exact.) -/
def planEdits (pf : ParsedFile) (lines : List JStr) : EditPlan :=
  (((((((((planList (planFunctionDeclaration lines) pf.functionDeclarations).append
    (planList (planClassMember lines) pf.methodDeclarations)).append
    (planList (planClassMember lines) pf.constructors)).append
    (planList (planClassMember lines) pf.getAccessors)).append
    (planList (planClassMember lines) pf.setAccessors)).append
    (planList (planPropertyDeclaration lines) pf.propertyDeclarations)).append
    (planList (planExportAssignment lines) pf.exportAssignments)).append
    (planList (planVariableDeclaration lines) pf.variableDeclarations)).append
    (planList (planArrowFunction lines) pf.arrowFunctions)).append
    (planList (planFunctionExpression lines) pf.functionExpressions)

/-! `applyEdits`, from `src/redact.ts`. -/

/-- `rangesOverlap` (redact.ts). -/
def rangesOverlap (left right : BlockEdit) : Bool :=
  decide (left.start ≤ right.«end») && decide (right.start ≤ left.«end»)

/-- The `.sort((a, b) => b.priority - a.priority || a.start - b.start)`
comparator as a boolean "comes before or equal" test. -/
def blockLE (a b : BlockEdit) : Bool :=
  decide (b.priority < a.priority) ||
    (decide (a.priority = b.priority) && decide (a.start ≤ b.start))

/-- Insert `x` after every element that strictly precedes it under `le`. -/
def sortedInsert (le : α → α → Bool) (x : α) : List α → List α
  | [] => [x]
  | y :: ys => if le y x && !le x y then y :: sortedInsert le x ys else x :: y :: ys

/-- Stable sort by a total preorder `le`.  For a consistent comparator the
stable sorted permutation is unique, so this is the JS
`Array.prototype.sort` result. -/
def stableSort (le : α → α → Bool) : List α → List α
  | [] => []
  | x :: xs => sortedInsert le x (stableSort le xs)

/-- Iteration core of the blanking loop: `n` remaining iterations, the
next one writing `''` at 1-based line `i`. -/
def blankLinesAux (lines : List JStr) (i : Int) : Nat → List JStr
  | 0 => lines
  | n + 1 => blankLinesAux (jsSetLine lines (i - 1) []) (i + 1) n

/-- The inner `for (let i = block.line + 1; i <= block.end; i += 1)`
loop blanking lines: runs for `i, i+1, …, end`. -/
def blankLines (lines : List JStr) (i «end» : Int) : List JStr :=
  blankLinesAux lines i ((«end» + 1 - i).toNat)

/-- One iteration of the `for (const block of filteredBlocks)` loop:
drop the block when it overlaps an accepted one, record it as accepted,
and (when its range is sane and in bounds) rewrite its anchor line to
`<indent>// implementation hidden` and blank the rest of its range. -/
def blockStep (acc : List BlockEdit × List JStr) (block : BlockEdit) :
    List BlockEdit × List JStr :=
  let appliedBlocks := acc.1
  let lines := acc.2
  if appliedBlocks.any (fun applied => rangesOverlap applied block) then
    (appliedBlocks, lines)
  else
    let appliedBlocks := appliedBlocks ++ [block]
    if block.«end» < block.start then (appliedBlocks, lines)
    else if decide (block.start < 1) || decide (lines.length < block.«end») then
      (appliedBlocks, lines)
    else
      let base := jsGetLine lines ((block.line : Int) - 1)
      let indent := leadingWhitespace base
      let lines := jsSetLine lines ((block.line : Int) - 1) (indent ++ hiddenLine)
      (appliedBlocks, blankLines lines ((block.line : Int) + 1) (block.«end» : Int))

/-- One iteration of the `for (const item of replace)` loop. -/
def replaceStep (windowed : LineWindow) (lines : List JStr) (item : LineEdit) : List JStr :=
  if decide (item.line < 1) || decide (lines.length < item.line) then lines
  else if decide (item.line < windowed.start) || decide (windowed.«end» < item.line) then lines
  else jsSetLine lines ((item.line : Int) - 1) item.text

/-- The inline edits that pass the window test, in original order (the
values inserted into `grouped`). -/
def windowInline (windowed : LineWindow) (inline : List InlineEdit) : List InlineEdit :=
  inline.filter fun item =>
    !(decide (item.line < windowed.start) || decide (windowed.«end» < item.line))

/-- The `grouped` map's keys in insertion order: first occurrences,
skipping keys already seen. -/
def firstOccKeysAux (seen : List Nat) : List Nat → List Nat
  | [] => []
  | k :: rest =>
    if k ∈ seen then firstOccKeysAux seen rest
    else k :: firstOccKeysAux (k :: seen) rest

def firstOccKeys (l : List Nat) : List Nat := firstOccKeysAux [] l

/-- One iteration of the `for (const [line, items] of grouped.entries())`
loop: apply the line's inline edits right-to-left (highest start column
first). -/
def inlineLineStep (lines : List JStr) (items : List InlineEdit) (line : Nat) : List JStr :=
  if decide (line < 1) || decide (lines.length < line) then lines
  else
    let sorted := stableSort (fun a b => decide (b.start ≤ a.start)) items
    let text := sorted.foldl
      (fun text edit =>
        let start := edit.start - 1
        let «end» := max (edit.«end» - 1) start
        text.take start ++ edit.text ++ text.drop «end»)
      (jsGetLine lines ((line : Int) - 1))
    jsSetLine lines ((line : Int) - 1) text

/-- `applyEdits` (redact.ts). -/
def applyEdits (lines : List JStr) (inline : List InlineEdit) (replace : List LineEdit)
    (blocks : List BlockEdit) (window : Option LineWindow) : List JStr :=
  let windowed := window.getD ⟨1, lines.length⟩
  let filteredBlocks := stableSort blockLE (blocks.filter fun block =>
    decide (windowed.start ≤ block.«end») && decide (block.start ≤ windowed.«end»))
  let lines := (filteredBlocks.foldl blockStep ([], lines)).2
  let lines := replace.foldl (replaceStep windowed) lines
  if inline.length = 0 then lines
  else
    let wInline := windowInline windowed inline
    (firstOccKeys (wInline.map (·.line))).foldl
      (fun lines key => inlineLineStep lines (wInline.filter (fun item => item.line = key)) key)
      lines

/-- `redactFile` (redact.ts), with the parser's view of `text` passed in
place of the `sourceFile(filePath, text)` call. -/
def redactFile (pf : ParsedFile) (text : JStr) (window : Option LineWindow) : JStr :=
  let lines := splitLines text
  let plan := planEdits pf lines
  joinLines (applyEdits lines plan.inline plan.replace plan.blocks window)

/-! `redactOutput` and its helpers, from `src/redact.ts`. -/

/-- `parseLinePrefix` (redact.ts): `/^(\d+)\|\s/` then `parseInt`. -/
def parseLinePrefix (prefixStr : Option JStr) : Option Nat :=
  let safePrefix := prefixStr.getD []
  let ds := safePrefix.takeWhile Char.isDigit
  if ds.isEmpty then none
  else
    match safePrefix.drop ds.length with
    | '|' :: c :: _ =>
      if isJsWhitespace c then
        some (ds.foldl (fun n c => n * 10 + (c.toNat - '0'.toNat)) 0)
      else none
    | _ => none

/-- `lineWindow` (redact.ts). -/
def lineWindow (startPrefix endPrefix : Option JStr) : Option LineWindow :=
  match parseLinePrefix startPrefix, parseLinePrefix endPrefix with
  | some start, some «end» => some ⟨start, «end»⟩
  | _, _ => none

/-- One line against `/^(\d*\| )([\s\S]*)$/`: `(match[1], match[2])`. -/
def matchPrefixLine (line : JStr) : Option (JStr × JStr) :=
  let ds := line.takeWhile Char.isDigit
  match line.drop ds.length with
  | '|' :: ' ' :: rest => some (ds ++ ['|', ' '], rest)
  | _ => none

/-- The `for (const line of lines)` collection loop of `redactOutput`,
stopping at the first line without a `\d*\| ` prefix.  (`match[1]` always
holds `"| "` when the regex matches, so the `!match[1]` break never
fires.) -/
def collectPrefixed : List JStr → List (JStr × JStr)
  | [] => []
  | line :: rest =>
    match matchPrefixLine line with
    | none => []
    | some entry => entry :: collectPrefixed rest

def fileTag : JStr := "<file>\n".toList

def fileCloseTag : JStr := "\n</file>".toList

/-- `redactOutput` (redact.ts).  The `Bun.file(title).text()` read is
external: `readResult` is its outcome (`none` = the `catch` branch), and
`pf` is the parser's view of the text read. -/
def redactOutput (pf : ParsedFile) (readResult : Option JStr) (output : JStr) : Option JStr :=
  match jsIndexOfSub fileTag output with
  | none => none
  | some start =>
    let tail := output.drop (start + fileTag.length)
    match jsIndexOfSub fileCloseTag tail with
    | none => none
    | some «end» =>
      let fileSection := tail.take «end»
      let lines := splitLines fileSection
      let data := collectPrefixed lines
      let prefixLength := data.length
      if data.length = 0 then none
      else
        let startPrefix := ((data.get? 0).map Prod.fst).getD []
        let endPrefix := ((data.get? (data.length - 1)).map Prod.fst).getD []
        match lineWindow (some startPrefix) (some endPrefix) with
        | none => none
        | some window =>
          match readResult with
          | none => none
          | some sourceText =>
            let redacted := redactFile pf sourceText (some window)
            let redactedLines := splitLines redacted
            if redactedLines.length < window.«end» then none
            else
              let updated :=
                jsArraySlice redactedLines ((window.start : Int) - 1) (window.«end» : Int)
              if updated.length ≠ data.length then none
              else
                let rebuilt := data.enum.map fun p => p.2.1 ++ ((updated.get? p.1).getD [])
                let content := joinLines (rebuilt ++ lines.drop prefixLength)
                let fileEnd := start + fileTag.length + «end»
                some (output.take (start + fileTag.length) ++ content ++ output.drop fileEnd)

/-! Observers on `redactOutput`'s pipeline stages, used to state when it
abstains.  Each recomputes the prefix of the pipeline up to one stage. -/

/-- The bounded `<file>` section, when the start tag and the closing tag
are both found. -/
def fileSectionOf (output : JStr) : Option JStr :=
  match jsIndexOfSub fileTag output with
  | none => none
  | some start =>
    let tail := output.drop (start + fileTag.length)
    match jsIndexOfSub fileCloseTag tail with
    | none => none
    | some «end» => some (tail.take «end»)

/-- The prefixed lines collected from the section (empty when there is no
section). -/
def prefixedDataOf (output : JStr) : List (JStr × JStr) :=
  match fileSectionOf output with
  | none => []
  | some s => collectPrefixed (splitLines s)

/-- The window derived from the first and last prefixed line. -/
def windowOf (output : JStr) : Option LineWindow :=
  match fileSectionOf output with
  | none => none
  | some s =>
    let data := collectPrefixed (splitLines s)
    if data.length = 0 then none
    else
      lineWindow (some (((data.get? 0).map Prod.fst).getD []))
        (some (((data.get? (data.length - 1)).map Prod.fst).getD []))

/-- The integrity check of `redactOutput` fails: the pipeline reaches the
redaction step and the redacted output has fewer than `window.end` lines,
or the `[window.start, window.end]` slice does not hold exactly as many
lines as were prefixed. -/
def integrityFails (pf : ParsedFile) (readResult : Option JStr) (output : JStr) : Bool :=
  match windowOf output, readResult with
  | some window, some sourceText =>
    let redactedLines := splitLines (redactFile pf sourceText (some window))
    decide (redactedLines.length < window.«end») ||
      decide ((jsArraySlice redactedLines ((window.start : Int) - 1)
        (window.«end» : Int)).length ≠ (prefixedDataOf output).length)
  | _, _ => false

/-! Shorthand used by the theorems. -/

/-- Every line is free of `'\n'` (true of `text.split('\n')` output). -/
def noNewlineLines (lines : List JStr) : Prop := ∀ l ∈ lines, '\n' ∉ l

/-- A file whose only relevant node is one exported top-level function
with body `body`. -/
def singleFunctionFile (body : BodySpan) : ParsedFile :=
  { ParsedFile.empty with functionDeclarations := [⟨true, some body⟩] }

/-! Concrete inputs for witnesses and counterexamples.  Each `ParsedFile`
is ts-morph's view of the paired text; positions can be checked by hand
against the text (1-based lines and columns). -/

/-- `function privateHelper() \x7b\n  return 1\n\x7d` — a non-exported
top-level function. -/
def c2Text : JStr := "function privateHelper() \x7b\n  return 1\n\x7d".toList

def c2File : ParsedFile :=
  { ParsedFile.empty with functionDeclarations := [⟨false, some ⟨1, 3, ⟨1, 27⟩, ⟨3, 1⟩⟩⟩] }

/-- An exported class whose only member is a private method (body on
lines 2–4): `isExportedClassMember` rejects it, so nothing is planned. -/
def c2bText : JStr :=
  "export class S \x7b\n  private m() \x7b\n    return 1\n  \x7d\n\x7d".toList

def c2bFile : ParsedFile :=
  { ParsedFile.empty with methodDeclarations := [⟨some true, true, false,
      some ⟨2, 4, ⟨2, 16⟩, ⟨4, 3⟩⟩⟩] }

/-- A six-line file: an exported function with body on lines 1–5
(`\x7b` at line 1 column 21, `\x7d` at line 5 column 1) and one extra
line after it. -/
def winText : JStr :=
  "export function f() \x7b\n  const a = 1\n  const b = 2\n  return a + b\n\x7d\nconst tail = 0".toList

def winFile : ParsedFile := singleFunctionFile ⟨1, 5, ⟨1, 22⟩, ⟨5, 1⟩⟩

/-- A three-line exported function: body on lines 1–3. -/
def c4Text : JStr := "export function g() \x7b\n  return 1\n\x7d".toList

def c4File : ParsedFile := singleFunctionFile ⟨1, 3, ⟨1, 22⟩, ⟨3, 1⟩⟩

/-- `export function f(a = \x7b\x7d) \x7b` / `\x7d`: a two-line body whose
opening line holds an earlier `\x7b` (the default-parameter object
literal) before the body's opening brace (column 27). -/
def braceText : JStr := "export function f(a = \x7b\x7d) \x7b\n\x7d".toList

def braceFile : ParsedFile := singleFunctionFile ⟨1, 2, ⟨1, 28⟩, ⟨2, 1⟩⟩

/-- The declared signature of `braceText`'s function: everything before
the body's opening brace. -/
def braceSignature : JStr := "export function f(a = \x7b\x7d) ".toList

/-- An exported class with a property whose initializer spans lines 2–4
(`=` at line 2 column 9, initializer end at line 4 column 4). -/
def c6Text : JStr := "export class A \x7b\n  items = [\n    1,\n  ]\n\x7d".toList

def c6File : ParsedFile :=
  { ParsedFile.empty with
      propertyDeclarations := [⟨some true, false, false, some ⟨4, 4⟩, some ⟨2, 9⟩⟩] }

/-- A wrapper whose section holds one digit-prefixed line and one line
whose prefix `"| "` carries no digits. -/
def c7Output : JStr := "<file>\n1| a\n| b\n</file>".toList

def c7Source : JStr := "const x = 1".toList

/-! Basic facts about line splitting and joining. -/

theorem splitLines_ne_nil : ∀ t : JStr, splitLines t ≠ []
  | [] => by simp [splitLines]
  | c :: rest => by
    simp only [splitLines]
    split
    · simp
    · cases h : splitLines rest with
      | nil => simp
      | cons l ls => simp

theorem length_splitLines_pos (t : JStr) : 0 < (splitLines t).length := by
  cases h : splitLines t with
  | nil => exact absurd h (splitLines_ne_nil t)
  | cons l ls => simp

theorem noNewline_splitLines : ∀ t : JStr, noNewlineLines (splitLines t)
  | [] => by simp [splitLines, noNewlineLines]
  | c :: rest => by
    have ih := noNewline_splitLines rest
    simp only [splitLines]
    by_cases hc : c = '\n'
    · simp only [if_pos hc]
      intro l hl
      rcases List.mem_cons.mp hl with h | h
      · simp [h]
      · exact ih l h
    · simp only [if_neg hc]
      cases h : splitLines rest with
      | nil => exact absurd h (splitLines_ne_nil rest)
      | cons l ls =>
        rw [h] at ih
        intro m hm
        rcases List.mem_cons.mp hm with h' | h'
        · subst h'
          intro hmem
          rcases List.mem_cons.mp hmem with h'' | h''
          · exact hc h''.symm
          · exact ih l (List.mem_cons_self l ls) h''
        · exact ih m (List.mem_cons_of_mem l h')

theorem splitLines_append_newline {l : JStr} (h : '\n' ∉ l) (rest : JStr) :
    splitLines (l ++ '\n' :: rest) = l :: splitLines rest := by
  induction l with
  | nil => simp [splitLines]
  | cons c l ih =>
    have hc : c ≠ '\n' := fun hc => h (hc ▸ List.mem_cons_self c l)
    have h' : '\n' ∉ l := fun hm => h (List.mem_cons_of_mem c hm)
    simp only [List.cons_append, splitLines, if_neg hc, List.append_eq]
    rw [ih h']

theorem splitLines_of_noNewline : ∀ {l : JStr}, '\n' ∉ l → splitLines l = [l]
  | [], _ => by simp [splitLines]
  | c :: l, h => by
    have hc : c ≠ '\n' := fun hc => h (hc ▸ List.mem_cons_self c l)
    have h' : '\n' ∉ l := fun hm => h (List.mem_cons_of_mem c hm)
    simp only [splitLines, if_neg hc, splitLines_of_noNewline h']

theorem splitLines_joinLines :
    ∀ {L : List JStr}, L ≠ [] → (∀ l ∈ L, '\n' ∉ l) → splitLines (joinLines L) = L
  | [], h, _ => absurd rfl h
  | [l], _, hL => by
    simp only [joinLines]
    exact splitLines_of_noNewline (hL l (List.mem_singleton.mpr rfl))
  | l :: l' :: ls, _, hL => by
    have h1 : '\n' ∉ l := hL l (List.mem_cons_self _ _)
    have h2 : ∀ m ∈ l' :: ls, '\n' ∉ m := fun m hm => hL m (List.mem_cons_of_mem l hm)
    simp only [joinLines]
    rw [splitLines_append_newline h1, splitLines_joinLines (List.cons_ne_nil l' ls) h2]

/-! Basic facts about the JS array helpers. -/

theorem jsSetLine_length {lines : List JStr} {i : Int} (v : JStr)
    (h : i < (lines.length : Int)) : (jsSetLine lines i v).length = lines.length := by
  unfold jsSetLine
  split
  · rfl
  · split
    · exact List.length_set ..
    · omega

theorem jsSetLine_get?_ne {lines : List JStr} {i : Int} (v : JStr) {j : Nat}
    (hi : i < (lines.length : Int)) (hj : (j : Int) ≠ i) :
    (jsSetLine lines i v).get? j = lines.get? j := by
  unfold jsSetLine
  split
  · rfl
  · split
    · have hne : i.toNat ≠ j := by omega
      exact List.get?_set_ne v lines hne
    · omega

theorem jsSetLine_get?_self {lines : List JStr} {i : Int} (v : JStr)
    (h0 : 0 ≤ i) (h : i < (lines.length : Int)) :
    (jsSetLine lines i v).get? i.toNat = some v := by
  unfold jsSetLine
  split
  · omega
  · split
    · have hlt : i.toNat < lines.length := by omega
      exact List.get?_set_eq_of_lt v hlt
    · omega

theorem jsSetLine_noNewline {lines : List JStr} {i : Int} {v : JStr}
    (hl : noNewlineLines lines) (hv : '\n' ∉ v) : noNewlineLines (jsSetLine lines i v) := by
  unfold jsSetLine
  split
  · exact hl
  · split
    · intro m hm
      rcases List.mem_or_eq_of_mem_set hm with h | h
      · exact hl m h
      · exact h ▸ hv
    · intro m hm
      rcases List.mem_append.mp hm with h | h
      · rcases List.mem_append.mp h with h' | h'
        · exact hl m h'
        · rw [List.eq_of_mem_replicate h']
          simp
      · rw [List.mem_singleton.mp h]
        exact hv

theorem jsGetLine_mem_or_nil (lines : List JStr) (i : Int) :
    jsGetLine lines i ∈ lines ∨ jsGetLine lines i = [] := by
  unfold jsGetLine
  split
  · exact Or.inr rfl
  · cases h : lines.get? i.toNat with
    | none => simp
    | some l => simp only [Option.getD_some]; exact Or.inl (List.get?_mem h)

theorem jsGetLine_noNewline {lines : List JStr} (hl : noNewlineLines lines) (i : Int) :
    '\n' ∉ jsGetLine lines i := by
  rcases jsGetLine_mem_or_nil lines i with h | h
  · exact hl _ h
  · rw [h]; simp

theorem noNewline_take {l : JStr} (h : '\n' ∉ l) (n : Nat) : '\n' ∉ l.take n :=
  fun hm => h ((List.take_sublist n l).subset hm)

theorem noNewline_drop {l : JStr} (h : '\n' ∉ l) (n : Nat) : '\n' ∉ l.drop n :=
  fun hm => h ((List.drop_sublist n l).subset hm)

theorem noNewline_leadingWhitespace {l : JStr} (h : '\n' ∉ l) :
    '\n' ∉ leadingWhitespace l :=
  fun hm => h ((List.takeWhile_sublist _).subset hm)

theorem noNewline_jsTrimEnd {l : JStr} (h : '\n' ∉ l) : '\n' ∉ jsTrimEnd l := by
  intro hm
  unfold jsTrimEnd at hm
  rw [List.mem_reverse] at hm
  exact h (List.mem_reverse.mp ((List.dropWhile_sublist _).subset hm))

theorem noNewline_jsTrimStart {l : JStr} (h : '\n' ∉ l) : '\n' ∉ jsTrimStart l :=
  fun hm => h ((List.dropWhile_sublist _).subset hm)

theorem noNewline_hiddenLine : '\n' ∉ hiddenLine := by decide

theorem noNewline_hiddenInline : '\n' ∉ hiddenInline := by decide

/-! `blankLines`: length, frame and newline-freedom. -/

theorem blankLinesAux_length : ∀ (n : Nat) (lines : List JStr) (i : Int),
    1 ≤ i → (n = 0 ∨ i + n - 1 ≤ (lines.length : Int)) →
    (blankLinesAux lines i n).length = lines.length
  | 0, lines, i, _, _ => rfl
  | n + 1, lines, i, h1, h2 => by
    rw [blankLinesAux]
    have h2' : i + n ≤ (lines.length : Int) := by omega
    have hset : (jsSetLine lines (i - 1) []).length = lines.length :=
      jsSetLine_length _ (by omega)
    rw [blankLinesAux_length n _ (i + 1) (by omega) (by rw [hset]; omega), hset]

theorem blankLines_length (lines : List JStr) (i «end» : Int) (h1 : 1 ≤ i)
    (h2 : «end» ≤ (lines.length : Int)) :
    (blankLines lines i «end»).length = lines.length := by
  rw [blankLines]
  exact blankLinesAux_length _ _ _ h1 (by omega)

theorem blankLinesAux_get?_outside : ∀ (n : Nat) (lines : List JStr) (i : Int) (j : Nat),
    1 ≤ i → (n = 0 ∨ i + n - 1 ≤ (lines.length : Int)) →
    ((j : Int) + 1 < i ∨ i + n - 1 < (j : Int) + 1) →
    (blankLinesAux lines i n).get? j = lines.get? j
  | 0, lines, i, j, _, _, _ => rfl
  | n + 1, lines, i, j, h1, h2, hout => by
    rw [blankLinesAux]
    have h2' : i + n ≤ (lines.length : Int) := by omega
    have hset : (jsSetLine lines (i - 1) []).length = lines.length :=
      jsSetLine_length _ (by omega)
    rw [blankLinesAux_get?_outside n _ (i + 1) j (by omega)
        (by rw [hset]; omega) (by omega),
      jsSetLine_get?_ne _ (by omega) (by omega)]

theorem blankLines_get?_outside (lines : List JStr) (i «end» : Int) (j : Nat)
    (h1 : 1 ≤ i) (h2 : «end» ≤ (lines.length : Int))
    (hout : (j : Int) + 1 < i ∨ «end» < (j : Int) + 1) :
    (blankLines lines i «end»).get? j = lines.get? j := by
  rw [blankLines]
  exact blankLinesAux_get?_outside _ _ _ _ h1 (by omega) (by omega)

theorem blankLinesAux_get?_inside : ∀ (n : Nat) (lines : List JStr) (i : Int) (j : Nat),
    1 ≤ i → (n = 0 ∨ i + n - 1 ≤ (lines.length : Int)) →
    (i ≤ (j : Int) + 1 ∧ (j : Int) + 1 ≤ i + n - 1) →
    (blankLinesAux lines i n).get? j = some []
  | 0, lines, i, j, _, _, hin => by omega
  | n + 1, lines, i, j, h1, h2, hin => by
    rw [blankLinesAux]
    have h2' : i + n ≤ (lines.length : Int) := by omega
    have hset : (jsSetLine lines (i - 1) []).length = lines.length :=
      jsSetLine_length _ (by omega)
    by_cases hj : (j : Int) + 1 = i
    · rw [blankLinesAux_get?_outside n _ (i + 1) j (by omega)
        (by rw [hset]; omega) (by omega)]
      have := @jsSetLine_get?_self lines (i - 1) [] (by omega) (by omega)
      have hjeq : (i - 1).toNat = j := by omega
      rw [hjeq] at this
      exact this
    · exact blankLinesAux_get?_inside n _ (i + 1) j (by omega)
        (by rw [hset]; omega) (by omega)

theorem blankLines_get?_inside (lines : List JStr) (i «end» : Int) (j : Nat)
    (h1 : 1 ≤ i) (h2 : «end» ≤ (lines.length : Int))
    (hin : i ≤ (j : Int) + 1 ∧ (j : Int) + 1 ≤ «end») :
    (blankLines lines i «end»).get? j = some [] := by
  rw [blankLines]
  exact blankLinesAux_get?_inside _ _ _ _ h1 (by omega) (by omega)

theorem blankLinesAux_noNewline : ∀ (n : Nat) (lines : List JStr) (i : Int),
    noNewlineLines lines → noNewlineLines (blankLinesAux lines i n)
  | 0, _, _, h => h
  | n + 1, lines, i, h =>
    blankLinesAux_noNewline n _ (i + 1) (jsSetLine_noNewline h (by simp))

theorem blankLines_noNewline (lines : List JStr) (i «end» : Int)
    (h : noNewlineLines lines) : noNewlineLines (blankLines lines i «end») :=
  blankLinesAux_noNewline _ _ _ h

/-! `blockStep`: the shape of the accepted list, length, frame and
newline-freedom. -/

theorem blockStep_fst (acc : List BlockEdit × List JStr) (b : BlockEdit) :
    (blockStep acc b).1 = acc.1 ∨
      ((blockStep acc b).1 = acc.1 ++ [b] ∧
        acc.1.any (fun a => rangesOverlap a b) = false) := by
  obtain ⟨applied, lines⟩ := acc
  unfold blockStep
  dsimp only
  split
  · exact Or.inl rfl
  · rename_i hover
    rw [Bool.not_eq_true] at hover
    split
    · exact Or.inr ⟨rfl, hover⟩
    · split
      · exact Or.inr ⟨rfl, hover⟩
      · exact Or.inr ⟨rfl, hover⟩

theorem blockStep_length (acc : List BlockEdit × List JStr) (b : BlockEdit)
    (hline : b.line = b.start) : ((blockStep acc b).2).length = acc.2.length := by
  obtain ⟨applied, lines⟩ := acc
  unfold blockStep
  dsimp only
  split
  · rfl
  · split
    · rfl
    · split
      · rfl
      · rename_i hrange hbound
        rw [Bool.or_eq_true, not_or] at hbound
        simp only [decide_eq_true_eq] at hbound
        have hset : (jsSetLine lines ((b.line : Int) - 1)
            (leadingWhitespace (jsGetLine lines ((b.line : Int) - 1)) ++ hiddenLine)).length
            = lines.length := jsSetLine_length _ (by omega)
        rw [blankLines_length _ _ _ (by omega) (by rw [hset]; omega), hset]

theorem blockStep_get?_outside (acc : List BlockEdit × List JStr) (b : BlockEdit) (j : Nat)
    (hline : b.line = b.start) (hout : ¬(b.start ≤ j + 1 ∧ j + 1 ≤ b.«end»)) :
    ((blockStep acc b).2).get? j = acc.2.get? j := by
  obtain ⟨applied, lines⟩ := acc
  unfold blockStep
  dsimp only
  split
  · rfl
  · split
    · rfl
    · split
      · rfl
      · rename_i hrange hbound
        rw [Bool.or_eq_true, not_or] at hbound
        simp only [decide_eq_true_eq] at hbound
        rw [not_and_or] at hout
        have hset : (jsSetLine lines ((b.line : Int) - 1)
            (leadingWhitespace (jsGetLine lines ((b.line : Int) - 1)) ++ hiddenLine)).length
            = lines.length := jsSetLine_length _ (by omega)
        rw [blankLines_get?_outside _ _ _ _ (by omega) (by rw [hset]; omega)
          (by omega), jsSetLine_get?_ne _ (by omega) (by omega)]

theorem blockStep_noNewline (acc : List BlockEdit × List JStr) (b : BlockEdit)
    (h : noNewlineLines acc.2) : noNewlineLines ((blockStep acc b).2) := by
  obtain ⟨applied, lines⟩ := acc
  unfold blockStep
  dsimp only
  split
  · exact h
  · split
    · exact h
    · split
      · exact h
      · refine blankLines_noNewline _ _ _ (jsSetLine_noNewline h ?_)
        intro hm
        rcases List.mem_append.mp hm with hm | hm
        · exact noNewline_leadingWhitespace (jsGetLine_noNewline h _) hm
        · exact noNewline_hiddenLine hm

/-! The block fold of `applyEdits`. -/

theorem foldl_blockStep_length (bs : List BlockEdit) (acc : List BlockEdit × List JStr)
    (h : ∀ b ∈ bs, b.line = b.start) :
    ((bs.foldl blockStep acc).2).length = acc.2.length := by
  induction bs generalizing acc with
  | nil => rfl
  | cons b bs ih =>
    rw [List.foldl_cons, ih _ (fun b' hb => h b' (List.mem_cons_of_mem _ hb))]
    exact blockStep_length acc b (h b (List.mem_cons_self _ _))

theorem foldl_blockStep_get?_outside (bs : List BlockEdit)
    (acc : List BlockEdit × List JStr) (j : Nat)
    (hline : ∀ b ∈ bs, b.line = b.start)
    (hout : ∀ b ∈ bs, ¬(b.start ≤ j + 1 ∧ j + 1 ≤ b.«end»)) :
    ((bs.foldl blockStep acc).2).get? j = acc.2.get? j := by
  induction bs generalizing acc with
  | nil => rfl
  | cons b bs ih =>
    rw [List.foldl_cons,
      ih _ (fun b' hb => hline b' (List.mem_cons_of_mem _ hb))
        (fun b' hb => hout b' (List.mem_cons_of_mem _ hb))]
    exact blockStep_get?_outside acc b j (hline b (List.mem_cons_self _ _))
      (hout b (List.mem_cons_self _ _))

theorem foldl_blockStep_noNewline (bs : List BlockEdit)
    (acc : List BlockEdit × List JStr) (h : noNewlineLines acc.2) :
    noNewlineLines ((bs.foldl blockStep acc).2) := by
  induction bs generalizing acc with
  | nil => exact h
  | cons b bs ih => exact ih _ (blockStep_noNewline acc b h)

theorem foldl_blockStep_pairwise (bs : List BlockEdit)
    (acc : List BlockEdit × List JStr)
    (h : List.Pairwise (fun a b => rangesOverlap a b = false) acc.1) :
    List.Pairwise (fun a b => rangesOverlap a b = false) ((bs.foldl blockStep acc).1) := by
  induction bs generalizing acc with
  | nil => exact h
  | cons b bs ih =>
    rw [List.foldl_cons]
    refine ih _ ?_
    rcases blockStep_fst acc b with hfst | ⟨hfst, hany⟩
    · rw [hfst]; exact h
    · rw [hfst, List.pairwise_append]
      refine ⟨h, List.pairwise_singleton _ _, ?_⟩
      intro a ha b' hb'
      rw [List.mem_singleton.mp hb']
      simpa using (List.any_eq_false.mp hany) a ha

/-! The line-replace fold of `applyEdits`. -/

theorem replaceStep_length (w : LineWindow) (lines : List JStr) (item : LineEdit) :
    (replaceStep w lines item).length = lines.length := by
  unfold replaceStep
  split
  · rfl
  · split
    · rfl
    · rename_i hb _
      rw [Bool.or_eq_true, not_or] at hb
      simp only [decide_eq_true_eq] at hb
      exact jsSetLine_length _ (by omega)

theorem replaceStep_get?_outside (w : LineWindow) (lines : List JStr) (item : LineEdit)
    (j : Nat) (hj : j + 1 < w.start ∨ w.«end» < j + 1) :
    (replaceStep w lines item).get? j = lines.get? j := by
  unfold replaceStep
  split
  · rfl
  · split
    · rfl
    · rename_i hb hw
      rw [Bool.or_eq_true, not_or] at hb hw
      simp only [decide_eq_true_eq] at hb hw
      exact jsSetLine_get?_ne _ (by omega) (by omega)

theorem replaceStep_noNewline (w : LineWindow) (lines : List JStr) (item : LineEdit)
    (h : noNewlineLines lines) (ht : '\n' ∉ item.text) :
    noNewlineLines (replaceStep w lines item) := by
  unfold replaceStep
  split
  · exact h
  · split
    · exact h
    · exact jsSetLine_noNewline h ht

/-! The sort used for blocks, and membership facts. -/

theorem mem_sortedInsert (le : α → α → Bool) (x y : α) :
    ∀ l : List α, y ∈ sortedInsert le x l ↔ y = x ∨ y ∈ l
  | [] => by simp [sortedInsert]
  | z :: zs => by
    unfold sortedInsert
    split
    · rw [List.mem_cons, mem_sortedInsert le x y zs, List.mem_cons]
      tauto
    · simp only [List.mem_cons]

theorem mem_stableSort (le : α → α → Bool) (y : α) :
    ∀ l : List α, y ∈ stableSort le l ↔ y ∈ l
  | [] => Iff.rfl
  | x :: xs => by
    unfold stableSort
    rw [mem_sortedInsert, mem_stableSort le y xs, List.mem_cons]

theorem pairwise_sortedInsert (le : α → α → Bool)
    (htot : ∀ a b, le a b = true ∨ le b a = true)
    (htrans : ∀ {a b c}, le a b = true → le b c = true → le a c = true) (x : α) :
    ∀ l : List α, List.Pairwise (fun a b => le a b = true) l →
      List.Pairwise (fun a b => le a b = true) (sortedInsert le x l)
  | [], _ => List.pairwise_singleton _ _
  | y :: ys, h => by
    unfold sortedInsert
    split
    · rename_i hcase
      rw [Bool.and_eq_true, Bool.not_eq_eq_eq_not, Bool.not_true] at hcase
      refine List.Pairwise.cons ?_ (pairwise_sortedInsert le htot htrans x ys h.tail)
      intro z hz
      rcases (mem_sortedInsert le x z ys).mp hz with hz | hz
      · exact hz ▸ hcase.1
      · exact List.rel_of_pairwise_cons h hz
    · rename_i hcase
      rw [Bool.and_eq_true, Bool.not_eq_eq_eq_not, Bool.not_true, not_and_or] at hcase
      have hxy : le x y = true := by
        rcases hcase with hc | hc
        · rcases htot x y with h' | h'
          · exact h'
          · exact absurd h' hc
        · rw [Bool.not_eq_false] at hc
          exact hc
      refine List.Pairwise.cons ?_ h
      intro z hz
      rcases List.mem_cons.mp hz with hz | hz
      · exact hz ▸ hxy
      · exact htrans hxy (List.rel_of_pairwise_cons h hz)

theorem pairwise_stableSort (le : α → α → Bool)
    (htot : ∀ a b, le a b = true ∨ le b a = true)
    (htrans : ∀ {a b c}, le a b = true → le b c = true → le a c = true) :
    ∀ l : List α, List.Pairwise (fun a b => le a b = true) (stableSort le l)
  | [] => List.Pairwise.nil
  | x :: xs =>
    pairwise_sortedInsert le htot htrans x (stableSort le xs)
      (pairwise_stableSort le htot htrans xs)

theorem blockLE_total (a b : BlockEdit) : blockLE a b = true ∨ blockLE b a = true := by
  simp only [blockLE, Bool.or_eq_true, Bool.and_eq_true, decide_eq_true_eq]
  omega

theorem blockLE_trans {a b c : BlockEdit} (h1 : blockLE a b = true)
    (h2 : blockLE b c = true) : blockLE a c = true := by
  simp only [blockLE, Bool.or_eq_true, Bool.and_eq_true, decide_eq_true_eq] at h1 h2 ⊢
  omega

/-! The replace fold of `applyEdits`. -/

theorem foldl_replaceStep_length (w : LineWindow) (items : List LineEdit)
    (lines : List JStr) : (items.foldl (replaceStep w) lines).length = lines.length := by
  induction items generalizing lines with
  | nil => rfl
  | cons item items ih => rw [List.foldl_cons, ih, replaceStep_length]

theorem foldl_replaceStep_get?_outside (w : LineWindow) (items : List LineEdit)
    (lines : List JStr) (j : Nat) (hj : j + 1 < w.start ∨ w.«end» < j + 1) :
    (items.foldl (replaceStep w) lines).get? j = lines.get? j := by
  induction items generalizing lines with
  | nil => rfl
  | cons item items ih => rw [List.foldl_cons, ih, replaceStep_get?_outside _ _ _ _ hj]

theorem foldl_replaceStep_noNewline (w : LineWindow) (items : List LineEdit)
    (lines : List JStr) (h : noNewlineLines lines)
    (ht : ∀ item ∈ items, '\n' ∉ item.text) :
    noNewlineLines (items.foldl (replaceStep w) lines) := by
  induction items generalizing lines with
  | nil => exact h
  | cons item items ih =>
    exact ih _ (replaceStep_noNewline _ _ _ h (ht item (List.mem_cons_self _ _)))
      (fun i hi => ht i (List.mem_cons_of_mem _ hi))

/-! The inline phase of `applyEdits`. -/

theorem noNewline_inlineFold (l : List InlineEdit) (ht : ∀ e ∈ l, '\n' ∉ e.text) :
    ∀ t : JStr, '\n' ∉ t →
      '\n' ∉ l.foldl (fun text edit =>
        text.take (edit.start - 1) ++ edit.text ++
          text.drop (max (edit.«end» - 1) (edit.start - 1))) t := by
  induction l with
  | nil => exact fun t h => h
  | cons e l ih =>
    intro t h
    rw [List.foldl_cons]
    refine ih (fun e' he' => ht e' (List.mem_cons_of_mem _ he')) _ ?_
    intro hm
    rcases List.mem_append.mp hm with hm | hm
    · rcases List.mem_append.mp hm with hm | hm
      · exact noNewline_take h _ hm
      · exact ht e (List.mem_cons_self _ _) hm
    · exact noNewline_drop h _ hm

theorem inlineLineStep_length (lines : List JStr) (items : List InlineEdit) (line : Nat) :
    (inlineLineStep lines items line).length = lines.length := by
  unfold inlineLineStep
  split
  · rfl
  · rename_i hb
    rw [Bool.or_eq_true, not_or] at hb
    simp only [decide_eq_true_eq] at hb
    exact jsSetLine_length _ (by omega)

theorem inlineLineStep_get?_ne (lines : List JStr) (items : List InlineEdit)
    (line : Nat) (j : Nat) (hne : line ≠ j + 1) :
    (inlineLineStep lines items line).get? j = lines.get? j := by
  unfold inlineLineStep
  split
  · rfl
  · rename_i hb
    rw [Bool.or_eq_true, not_or] at hb
    simp only [decide_eq_true_eq] at hb
    exact jsSetLine_get?_ne _ (by omega) (by omega)

theorem inlineLineStep_noNewline (lines : List JStr) (items : List InlineEdit)
    (line : Nat) (h : noNewlineLines lines) (ht : ∀ e ∈ items, '\n' ∉ e.text) :
    noNewlineLines (inlineLineStep lines items line) := by
  unfold inlineLineStep
  split
  · exact h
  · refine jsSetLine_noNewline h ?_
    exact noNewline_inlineFold _
      (fun e he => ht e ((mem_stableSort _ e items).mp he)) _
      (jsGetLine_noNewline h _)

theorem mem_firstOccKeysAux {x : Nat} :
    ∀ {l : List Nat} {seen : List Nat}, x ∈ firstOccKeysAux seen l → x ∈ l
  | [], seen, h => by simp [firstOccKeysAux] at h
  | k :: rest, seen, h => by
    rw [firstOccKeysAux] at h
    split at h
    · exact List.mem_cons_of_mem _ (mem_firstOccKeysAux h)
    · rcases List.mem_cons.mp h with h | h
      · exact h ▸ List.mem_cons_self _ _
      · exact List.mem_cons_of_mem _ (mem_firstOccKeysAux h)

theorem mem_firstOccKeys {x : Nat} {l : List Nat} (h : x ∈ firstOccKeys l) : x ∈ l :=
  mem_firstOccKeysAux h

theorem foldl_inlineLineStep_length (keys : List Nat) (f : Nat → List InlineEdit)
    (lines : List JStr) :
    (keys.foldl (fun lines key => inlineLineStep lines (f key) key) lines).length
      = lines.length := by
  induction keys generalizing lines with
  | nil => rfl
  | cons k keys ih => rw [List.foldl_cons, ih, inlineLineStep_length]

theorem foldl_inlineLineStep_get?_ne (keys : List Nat) (f : Nat → List InlineEdit)
    (lines : List JStr) (j : Nat) (hne : ∀ k ∈ keys, k ≠ j + 1) :
    (keys.foldl (fun lines key => inlineLineStep lines (f key) key) lines).get? j
      = lines.get? j := by
  induction keys generalizing lines with
  | nil => rfl
  | cons k keys ih =>
    rw [List.foldl_cons, ih _ (fun k' hk' => hne k' (List.mem_cons_of_mem _ hk')),
      inlineLineStep_get?_ne _ _ _ _ (hne k (List.mem_cons_self _ _))]

theorem foldl_inlineLineStep_noNewline (keys : List Nat) (f : Nat → List InlineEdit)
    (lines : List JStr) (h : noNewlineLines lines)
    (ht : ∀ k ∈ keys, ∀ e ∈ f k, '\n' ∉ e.text) :
    noNewlineLines
      (keys.foldl (fun lines key => inlineLineStep lines (f key) key) lines) := by
  induction keys generalizing lines with
  | nil => exact h
  | cons k keys ih =>
    exact ih _
      (inlineLineStep_noNewline _ _ _ h (ht k (List.mem_cons_self _ _)))
      (fun k' hk' => ht k' (List.mem_cons_of_mem _ hk'))

/-! `applyEdits`: length preservation, newline-freedom, and the frame
property outside the window. -/

theorem applyEdits_length (lines : List JStr) (inline : List InlineEdit)
    (replace : List LineEdit) (blocks : List BlockEdit) (window : Option LineWindow)
    (hblocks : ∀ b ∈ blocks, b.line = b.start) :
    (applyEdits lines inline replace blocks window).length = lines.length := by
  unfold applyEdits
  dsimp only
  have hmem : ∀ b ∈ stableSort blockLE (blocks.filter fun block =>
      decide ((window.getD ⟨1, lines.length⟩).start ≤ block.«end») &&
        decide (block.start ≤ (window.getD ⟨1, lines.length⟩).«end»)),
      b.line = b.start := by
    intro b hb
    exact hblocks b (List.mem_filter.mp ((mem_stableSort _ _ _).mp hb)).1
  split
  · rw [foldl_replaceStep_length, foldl_blockStep_length _ _ hmem]
  · rw [foldl_inlineLineStep_length, foldl_replaceStep_length,
      foldl_blockStep_length _ _ hmem]

theorem applyEdits_noNewline (lines : List JStr) (inline : List InlineEdit)
    (replace : List LineEdit) (blocks : List BlockEdit) (window : Option LineWindow)
    (hl : noNewlineLines lines)
    (hr : ∀ item ∈ replace, '\n' ∉ item.text)
    (hi : ∀ e ∈ inline, '\n' ∉ e.text) :
    noNewlineLines (applyEdits lines inline replace blocks window) := by
  unfold applyEdits
  dsimp only
  have h1 := foldl_blockStep_noNewline (stableSort blockLE (blocks.filter fun block =>
      decide ((window.getD ⟨1, lines.length⟩).start ≤ block.«end») &&
        decide (block.start ≤ (window.getD ⟨1, lines.length⟩).«end»)))
    ([], lines) hl
  have h2 := foldl_replaceStep_noNewline (window.getD ⟨1, lines.length⟩) replace _ h1 hr
  split
  · exact h2
  · refine foldl_inlineLineStep_noNewline _ _ _ h2 ?_
    intro k _ e he
    exact hi e ((List.mem_filter.mp ((List.mem_filter.mp he).1)).1)

theorem applyEdits_get?_outside_window (lines : List JStr) (inline : List InlineEdit)
    (replace : List LineEdit) (blocks : List BlockEdit) (w : LineWindow) (j : Nat)
    (hout : j + 1 < w.start ∨ w.«end» < j + 1)
    (hblocks : ∀ b ∈ blocks, b.line = b.start)
    (hbout : ∀ b ∈ blocks, (w.start ≤ b.«end» ∧ b.start ≤ w.«end») →
      ¬(b.start ≤ j + 1 ∧ j + 1 ≤ b.«end»)) :
    (applyEdits lines inline replace blocks (some w)).get? j = lines.get? j := by
  unfold applyEdits
  dsimp only [Option.getD_some]
  have hmem : ∀ b ∈ stableSort blockLE (blocks.filter fun block =>
      decide (w.start ≤ block.«end») && decide (block.start ≤ w.«end»)),
      b ∈ blocks ∧ (w.start ≤ b.«end» ∧ b.start ≤ w.«end») := by
    intro b hb
    have := List.mem_filter.mp ((mem_stableSort _ _ _).mp hb)
    refine ⟨this.1, ?_⟩
    have := this.2
    simp only [Bool.and_eq_true, decide_eq_true_eq] at this
    exact this
  have h1 := foldl_blockStep_get?_outside (stableSort blockLE (blocks.filter fun block =>
      decide (w.start ≤ block.«end») && decide (block.start ≤ w.«end»)))
    ([], lines) j
    (fun b hb => hblocks b (hmem b hb).1)
    (fun b hb => hbout b (hmem b hb).1 (hmem b hb).2)
  have h2 := foldl_replaceStep_get?_outside w replace
    ((stableSort blockLE (blocks.filter fun block =>
      decide (w.start ≤ block.«end») && decide (block.start ≤ w.«end»))).foldl
        blockStep ([], lines)).2 j hout
  split
  · rw [h2, h1]
  · rw [foldl_inlineLineStep_get?_ne, h2, h1]
    intro k hk
    have hk' := mem_firstOccKeys hk
    rcases List.mem_map.mp hk' with ⟨e, he, hke⟩
    have := (List.mem_filter.mp he).2
    simp only [Bool.not_eq_true', Bool.or_eq_false_iff, decide_eq_false_iff_not,
      not_lt] at this
    omega

/-! Structure of the planned edits. -/

theorem foldl_append_blocks (f : α → EditPlan) :
    ∀ (ns : List α) (acc : EditPlan) (b : BlockEdit),
      (b ∈ ((ns.foldl (fun a n => a.append (f n)) acc).blocks) ↔
        b ∈ acc.blocks ∨ ∃ n ∈ ns, b ∈ (f n).blocks)
  | [], acc, b => by simp
  | n :: ns, acc, b => by
    rw [List.foldl_cons, foldl_append_blocks f ns _ b]
    simp only [EditPlan.append, List.mem_append, List.mem_cons]
    constructor
    · rintro (( h | h) | ⟨m, hm, h⟩)
      · exact Or.inl h
      · exact Or.inr ⟨n, Or.inl rfl, h⟩
      · exact Or.inr ⟨m, Or.inr hm, h⟩
    · rintro (h | ⟨m, (rfl | hm), h⟩)
      · exact Or.inl (Or.inl h)
      · exact Or.inl (Or.inr h)
      · exact Or.inr ⟨m, hm, h⟩

theorem mem_planList_blocks {f : α → EditPlan} {ns : List α} {b : BlockEdit}
    (h : b ∈ (planList f ns).blocks) : ∃ n ∈ ns, b ∈ (f n).blocks := by
  unfold planList at h
  rcases (foldl_append_blocks f ns EditPlan.empty b).mp h with h | h
  · simp [EditPlan.empty] at h
  · exact h

theorem foldl_append_replace (f : α → EditPlan) :
    ∀ (ns : List α) (acc : EditPlan) (r : LineEdit),
      (r ∈ ((ns.foldl (fun a n => a.append (f n)) acc).replace) ↔
        r ∈ acc.replace ∨ ∃ n ∈ ns, r ∈ (f n).replace)
  | [], acc, r => by simp
  | n :: ns, acc, r => by
    rw [List.foldl_cons, foldl_append_replace f ns _ r]
    simp only [EditPlan.append, List.mem_append, List.mem_cons]
    constructor
    · rintro (( h | h) | ⟨m, hm, h⟩)
      · exact Or.inl h
      · exact Or.inr ⟨n, Or.inl rfl, h⟩
      · exact Or.inr ⟨m, Or.inr hm, h⟩
    · rintro (h | ⟨m, (rfl | hm), h⟩)
      · exact Or.inl (Or.inl h)
      · exact Or.inl (Or.inr h)
      · exact Or.inr ⟨m, hm, h⟩

theorem mem_planList_replace {f : α → EditPlan} {ns : List α} {r : LineEdit}
    (h : r ∈ (planList f ns).replace) : ∃ n ∈ ns, r ∈ (f n).replace := by
  unfold planList at h
  rcases (foldl_append_replace f ns EditPlan.empty r).mp h with h | h
  · simp [EditPlan.empty] at h
  · exact h

theorem foldl_append_inline (f : α → EditPlan) :
    ∀ (ns : List α) (acc : EditPlan) (e : InlineEdit),
      (e ∈ ((ns.foldl (fun a n => a.append (f n)) acc).inline) ↔
        e ∈ acc.inline ∨ ∃ n ∈ ns, e ∈ (f n).inline)
  | [], acc, e => by simp
  | n :: ns, acc, e => by
    rw [List.foldl_cons, foldl_append_inline f ns _ e]
    simp only [EditPlan.append, List.mem_append, List.mem_cons]
    constructor
    · rintro (( h | h) | ⟨m, hm, h⟩)
      · exact Or.inl h
      · exact Or.inr ⟨n, Or.inl rfl, h⟩
      · exact Or.inr ⟨m, Or.inr hm, h⟩
    · rintro (h | ⟨m, (rfl | hm), h⟩)
      · exact Or.inl (Or.inl h)
      · exact Or.inl (Or.inr h)
      · exact Or.inr ⟨m, hm, h⟩

theorem mem_planList_inline {f : α → EditPlan} {ns : List α} {e : InlineEdit}
    (h : e ∈ (planList f ns).inline) : ∃ n ∈ ns, e ∈ (f n).inline := by
  unfold planList at h
  rcases (foldl_append_inline f ns EditPlan.empty e).mp h with h | h
  · simp [EditPlan.empty] at h
  · exact h

/-- Every block a planner emits has its anchor `line` at its `start`, the
given priority, and starts strictly after the span's opening line. -/
theorem redactBlock_blocks {body : BodySpan} {lines : List JStr} {priority : Nat}
    {b : BlockEdit} (h : b ∈ (redactBlock body lines priority).blocks) :
    b.line = b.start ∧ b.priority = priority ∧ body.startLine < b.start := by
  unfold redactBlock at h
  dsimp only at h
  split at h
  · simp at h
  · split at h
    · simp at h
    · rw [List.mem_singleton.mp h]
      exact ⟨rfl, rfl, Nat.lt_succ_self _⟩

theorem redactExpression_blocks {span : ExprSpan} {priority : Nat} {b : BlockEdit}
    (h : b ∈ (redactExpression span priority).blocks) :
    b.line = b.start ∧ b.priority = priority := by
  unfold redactExpression at h
  dsimp only at h
  split at h
  · simp at h
  · rw [List.mem_singleton.mp h]
    exact ⟨rfl, rfl⟩

theorem redactInitializer_blocks {node : PropertyDeclarationNode} {lines : List JStr}
    {priority : Nat} {b : BlockEdit}
    (h : b ∈ (redactInitializer node lines priority).blocks) :
    b.line = b.start ∧ b.priority = priority := by
  unfold redactInitializer at h
  rcases hinit : node.initEnd with _ | initEnd <;> rw [hinit] at h
  · simp [EditPlan.empty] at h
  · rcases heq : node.equalsPos with _ | eq <;> rw [heq] at h
    · simp [EditPlan.empty] at h
    · dsimp only at h
      split at h
      · simp at h
      · rw [List.mem_singleton.mp h]
        exact ⟨rfl, rfl⟩

theorem redactVariableInitializer_blocks {node : VariableDeclarationNode}
    {lines : List JStr} {priority : Nat} {b : BlockEdit}
    (h : b ∈ (redactVariableInitializer node lines priority).blocks) :
    b.line = b.start ∧ b.priority = priority := by
  unfold redactVariableInitializer at h
  rcases hinit : node.initEnd with _ | initEnd <;> rw [hinit] at h
  · simp [EditPlan.empty] at h
  · rcases heq : node.equalsPos with _ | eq <;> rw [heq] at h
    · simp [EditPlan.empty] at h
    · dsimp only at h
      split at h
      · simp at h
      · rw [List.mem_singleton.mp h]
        exact ⟨rfl, rfl⟩

theorem planFunctionDeclaration_blocks {lines : List JStr} {n : FunctionDeclarationNode}
    {b : BlockEdit} (h : b ∈ (planFunctionDeclaration lines n).blocks) :
    b.line = b.start ∧ b.priority = 3 := by
  unfold planFunctionDeclaration at h
  split at h
  · simp [EditPlan.empty] at h
  · rcases hb : n.body with _ | body <;> rw [hb] at h
    · simp [EditPlan.empty] at h
    · exact ⟨(redactBlock_blocks h).1, (redactBlock_blocks h).2.1⟩

theorem planClassMember_blocks {lines : List JStr} {n : ClassMemberNode}
    {b : BlockEdit} (h : b ∈ (planClassMember lines n).blocks) :
    b.line = b.start ∧ b.priority = 3 := by
  unfold planClassMember at h
  split at h
  · simp [EditPlan.empty] at h
  · rcases hb : n.body with _ | body <;> rw [hb] at h
    · simp [EditPlan.empty] at h
    · exact ⟨(redactBlock_blocks h).1, (redactBlock_blocks h).2.1⟩

theorem planPropertyDeclaration_blocks {lines : List JStr} {n : PropertyDeclarationNode}
    {b : BlockEdit} (h : b ∈ (planPropertyDeclaration lines n).blocks) :
    b.line = b.start ∧ b.priority = 3 := by
  unfold planPropertyDeclaration at h
  split at h
  · simp [EditPlan.empty] at h
  · rcases hn : n.initEnd with _ | initEnd
    · rw [hn] at h; simp [EditPlan.empty] at h
    · rw [hn] at h
      exact redactInitializer_blocks h

theorem planExportAssignment_blocks {lines : List JStr} {n : ExportAssignmentNode}
    {b : BlockEdit} (h : b ∈ (planExportAssignment lines n).blocks) :
    b.line = b.start ∧ b.priority = 3 := by
  unfold planExportAssignment at h
  rcases he : n.expr with _ | expr <;> rw [he] at h
  · simp [EditPlan.empty] at h
  · rcases expr with ⟨_ | block, span⟩ | ⟨_ | block⟩ | _
    · exact redactExpression_blocks h
    · exact ⟨(redactBlock_blocks h).1, (redactBlock_blocks h).2.1⟩
    · simp [EditPlan.empty] at h
    · exact ⟨(redactBlock_blocks h).1, (redactBlock_blocks h).2.1⟩
    · simp [EditPlan.empty] at h

theorem planVariableDeclaration_blocks {lines : List JStr} {n : VariableDeclarationNode}
    {b : BlockEdit} (h : b ∈ (planVariableDeclaration lines n).blocks) :
    b.line = b.start ∧ b.priority = 2 := by
  unfold planVariableDeclaration at h
  rcases hinit : n.initEnd with _ | initEnd <;> rw [hinit] at h
  · simp [EditPlan.empty] at h
  · dsimp only at h
    split at h
    · simp [EditPlan.empty] at h
    · exact redactVariableInitializer_blocks h

theorem planArrowFunction_blocks {lines : List JStr} {n : ArrowFunctionNode}
    {b : BlockEdit} (h : b ∈ (planArrowFunction lines n).blocks) :
    b.line = b.start ∧ b.priority = 1 := by
  unfold planArrowFunction at h
  split at h
  · simp [EditPlan.empty] at h
  · rcases hb : n.body with body | e <;> rw [hb] at h
    · exact ⟨(redactBlock_blocks h).1, (redactBlock_blocks h).2.1⟩
    · exact redactExpression_blocks h

theorem planFunctionExpression_blocks {lines : List JStr} {n : FunctionExpressionNode}
    {b : BlockEdit} (h : b ∈ (planFunctionExpression lines n).blocks) :
    b.line = b.start ∧ b.priority = 2 := by
  unfold planFunctionExpression at h
  split at h
  · simp [EditPlan.empty] at h
  · rcases hb : n.body with _ | body <;> rw [hb] at h
    · simp [EditPlan.empty] at h
    · exact ⟨(redactBlock_blocks h).1, (redactBlock_blocks h).2.1⟩

/-- Case decomposition of a planned block over the ten selection loops. -/
theorem planEdits_blocks_cases {pf : ParsedFile} {lines : List JStr} {b : BlockEdit}
    (h : b ∈ (planEdits pf lines).blocks) :
    (∃ n ∈ pf.functionDeclarations, b ∈ (planFunctionDeclaration lines n).blocks) ∨
    (∃ n ∈ pf.methodDeclarations, b ∈ (planClassMember lines n).blocks) ∨
    (∃ n ∈ pf.constructors, b ∈ (planClassMember lines n).blocks) ∨
    (∃ n ∈ pf.getAccessors, b ∈ (planClassMember lines n).blocks) ∨
    (∃ n ∈ pf.setAccessors, b ∈ (planClassMember lines n).blocks) ∨
    (∃ n ∈ pf.propertyDeclarations, b ∈ (planPropertyDeclaration lines n).blocks) ∨
    (∃ n ∈ pf.exportAssignments, b ∈ (planExportAssignment lines n).blocks) ∨
    (∃ n ∈ pf.variableDeclarations, b ∈ (planVariableDeclaration lines n).blocks) ∨
    (∃ n ∈ pf.arrowFunctions, b ∈ (planArrowFunction lines n).blocks) ∨
    (∃ n ∈ pf.functionExpressions, b ∈ (planFunctionExpression lines n).blocks) := by
  unfold planEdits at h
  simp only [EditPlan.append, List.mem_append] at h
  rcases h with ((((((((h | h) | h) | h) | h) | h) | h) | h) | h) | h <;>
    [skip; skip; skip; skip; skip; skip; skip; skip; skip; skip] <;>
    first
      | exact Or.inl (mem_planList_blocks h)
      | exact Or.inr (Or.inl (mem_planList_blocks h))
      | exact Or.inr (Or.inr (Or.inl (mem_planList_blocks h)))
      | exact Or.inr (Or.inr (Or.inr (Or.inl (mem_planList_blocks h))))
      | exact Or.inr (Or.inr (Or.inr (Or.inr (Or.inl (mem_planList_blocks h)))))
      | exact Or.inr (Or.inr (Or.inr (Or.inr (Or.inr (Or.inl (mem_planList_blocks h))))))
      | exact Or.inr (Or.inr (Or.inr (Or.inr (Or.inr (Or.inr (Or.inl
          (mem_planList_blocks h)))))))
      | exact Or.inr (Or.inr (Or.inr (Or.inr (Or.inr (Or.inr (Or.inr (Or.inl
          (mem_planList_blocks h))))))))
      | exact Or.inr (Or.inr (Or.inr (Or.inr (Or.inr (Or.inr (Or.inr (Or.inr (Or.inl
          (mem_planList_blocks h)))))))))
      | exact Or.inr (Or.inr (Or.inr (Or.inr (Or.inr (Or.inr (Or.inr (Or.inr (Or.inr
          (mem_planList_blocks h)))))))))

/-- Every planned block has `line = start`. -/
theorem planEdits_blocks_line_eq_start (pf : ParsedFile) (lines : List JStr) :
    ∀ b ∈ (planEdits pf lines).blocks, b.line = b.start := by
  intro b h
  rcases planEdits_blocks_cases h with
    ⟨n, _, h⟩ | ⟨n, _, h⟩ | ⟨n, _, h⟩ | ⟨n, _, h⟩ | ⟨n, _, h⟩ | ⟨n, _, h⟩ | ⟨n, _, h⟩ |
      ⟨n, _, h⟩ | ⟨n, _, h⟩ | ⟨n, _, h⟩
  · exact (planFunctionDeclaration_blocks h).1
  · exact (planClassMember_blocks h).1
  · exact (planClassMember_blocks h).1
  · exact (planClassMember_blocks h).1
  · exact (planClassMember_blocks h).1
  · exact (planPropertyDeclaration_blocks h).1
  · exact (planExportAssignment_blocks h).1
  · exact (planVariableDeclaration_blocks h).1
  · exact (planArrowFunction_blocks h).1
  · exact (planFunctionExpression_blocks h).1

/-! Newline-freedom of every planned edit text. -/

theorem redactBlock_replace_noNewline {body : BodySpan} {lines : List JStr}
    {priority : Nat} (hl : noNewlineLines lines) :
    ∀ r ∈ (redactBlock body lines priority).replace, '\n' ∉ r.text := by
  intro r hr
  unfold redactBlock at hr
  dsimp only at hr
  split at hr
  · simp at hr
  · split at hr
    · rw [List.mem_singleton.mp hr]
      have hline := jsGetLine_noNewline hl ((body.startLine : Int) - 1)
      cases hidx : jsIndexOfChar '\x7b' (jsGetLine lines ((body.startLine : Int) - 1)) with
      | none =>
        dsimp only
        intro hm
        rcases List.mem_append.mp hm with hm | hm
        · exact hline hm
        · rcases List.mem_cons.mp hm with hm | hm
          · exact absurd hm.symm (by decide)
          · exact noNewline_hiddenLine hm
      | some braceIndex =>
        dsimp only
        intro hm
        rcases List.mem_append.mp hm with hm | hm
        · rcases List.mem_append.mp hm with hm | hm
          · exact noNewline_take hline _ hm
          · rcases List.mem_cons.mp hm with hm | hm
            · exact absurd hm.symm (by decide)
            · exact noNewline_hiddenLine hm
        · exact noNewline_drop hline _ hm
    · simp at hr

theorem initializerTexts_noNewline {lines : List JStr} (hl : noNewlineLines lines)
    (startPos endPos : Pos) :
    '\n' ∉ jsTrimEnd ((jsGetLine lines ((startPos.line : Int) - 1)).take
        (startPos.column - 1)) ++ '=' :: ' ' :: hiddenInline ∧
    '\n' ∉ leadingWhitespace (jsGetLine lines ((endPos.line : Int) - 1)) ++
        jsTrimStart ((jsGetLine lines ((endPos.line : Int) - 1)).drop
          (endPos.column - 1)) := by
  constructor
  · intro hm
    rcases List.mem_append.mp hm with hm | hm
    · exact noNewline_jsTrimEnd (noNewline_take (jsGetLine_noNewline hl _) _) hm
    · rcases List.mem_cons.mp hm with hm | hm
      · exact absurd hm.symm (by decide)
      · rcases List.mem_cons.mp hm with hm | hm
        · exact absurd hm.symm (by decide)
        · exact noNewline_hiddenInline hm
  · intro hm
    rcases List.mem_append.mp hm with hm | hm
    · exact noNewline_leadingWhitespace (jsGetLine_noNewline hl _) hm
    · exact noNewline_jsTrimStart (noNewline_drop (jsGetLine_noNewline hl _) _) hm

theorem redactInitializer_replace_noNewline {node : PropertyDeclarationNode}
    {lines : List JStr} {priority : Nat} (hl : noNewlineLines lines) :
    ∀ r ∈ (redactInitializer node lines priority).replace, '\n' ∉ r.text := by
  intro r hr
  unfold redactInitializer at hr
  rcases hinit : node.initEnd with _ | initEnd <;> rw [hinit] at hr
  · simp [EditPlan.empty] at hr
  · rcases heq : node.equalsPos with _ | eq <;> rw [heq] at hr
    · simp [EditPlan.empty] at hr
    · dsimp only at hr
      split at hr
      · simp at hr
      · rcases List.mem_cons.mp hr with hr | hr
        · rw [hr]
          exact (initializerTexts_noNewline hl eq initEnd).1
        · rw [List.mem_singleton.mp hr]
          exact (initializerTexts_noNewline hl eq initEnd).2

theorem redactVariableInitializer_replace_noNewline {node : VariableDeclarationNode}
    {lines : List JStr} {priority : Nat} (hl : noNewlineLines lines) :
    ∀ r ∈ (redactVariableInitializer node lines priority).replace, '\n' ∉ r.text := by
  intro r hr
  unfold redactVariableInitializer at hr
  rcases hinit : node.initEnd with _ | initEnd <;> rw [hinit] at hr
  · simp [EditPlan.empty] at hr
  · rcases heq : node.equalsPos with _ | eq <;> rw [heq] at hr
    · simp [EditPlan.empty] at hr
    · dsimp only at hr
      split at hr
      · simp at hr
      · rcases List.mem_cons.mp hr with hr | hr
        · rw [hr]
          exact (initializerTexts_noNewline hl eq initEnd).1
        · rw [List.mem_singleton.mp hr]
          exact (initializerTexts_noNewline hl eq initEnd).2

theorem redactExpression_replace {span : ExprSpan} {priority : Nat} :
    (redactExpression span priority).replace = [] := by
  unfold redactExpression
  dsimp only
  split <;> rfl

/-- Every inline text a planner emits is one of the three marker strings. -/
theorem redactBlock_inline_noNewline {body : BodySpan} {lines : List JStr}
    {priority : Nat} : ∀ e ∈ (redactBlock body lines priority).inline, '\n' ∉ e.text := by
  intro e he
  unfold redactBlock at he
  dsimp only at he
  split at he
  · rw [List.mem_singleton.mp he]
    dsimp only
    decide
  · split at he <;> simp at he

theorem redactExpression_inline_noNewline {span : ExprSpan} {priority : Nat} :
    ∀ e ∈ (redactExpression span priority).inline, '\n' ∉ e.text := by
  intro e he
  unfold redactExpression at he
  dsimp only at he
  split at he
  · rw [List.mem_singleton.mp he]
    dsimp only
    decide
  · simp at he

theorem redactInitializer_inline_noNewline {node : PropertyDeclarationNode}
    {lines : List JStr} {priority : Nat} :
    ∀ e ∈ (redactInitializer node lines priority).inline, '\n' ∉ e.text := by
  intro e he
  unfold redactInitializer at he
  rcases hinit : node.initEnd with _ | initEnd <;> rw [hinit] at he
  · simp [EditPlan.empty] at he
  · rcases heq : node.equalsPos with _ | eq <;> rw [heq] at he
    · simp [EditPlan.empty] at he
    · dsimp only at he
      split at he
      · rw [List.mem_singleton.mp he]
        dsimp only
        decide
      · simp at he

theorem redactVariableInitializer_inline_noNewline {node : VariableDeclarationNode}
    {lines : List JStr} {priority : Nat} :
    ∀ e ∈ (redactVariableInitializer node lines priority).inline, '\n' ∉ e.text := by
  intro e he
  unfold redactVariableInitializer at he
  rcases hinit : node.initEnd with _ | initEnd <;> rw [hinit] at he
  · simp [EditPlan.empty] at he
  · rcases heq : node.equalsPos with _ | eq <;> rw [heq] at he
    · simp [EditPlan.empty] at he
    · dsimp only at he
      split at he
      · rw [List.mem_singleton.mp he]
        dsimp only
        decide
      · simp at he

/-- Case decomposition of a planned line replace over the ten loops. -/
theorem planEdits_replace_cases {pf : ParsedFile} {lines : List JStr} {r : LineEdit}
    (h : r ∈ (planEdits pf lines).replace) :
    (∃ n ∈ pf.functionDeclarations, r ∈ (planFunctionDeclaration lines n).replace) ∨
    (∃ n ∈ pf.methodDeclarations, r ∈ (planClassMember lines n).replace) ∨
    (∃ n ∈ pf.constructors, r ∈ (planClassMember lines n).replace) ∨
    (∃ n ∈ pf.getAccessors, r ∈ (planClassMember lines n).replace) ∨
    (∃ n ∈ pf.setAccessors, r ∈ (planClassMember lines n).replace) ∨
    (∃ n ∈ pf.propertyDeclarations, r ∈ (planPropertyDeclaration lines n).replace) ∨
    (∃ n ∈ pf.exportAssignments, r ∈ (planExportAssignment lines n).replace) ∨
    (∃ n ∈ pf.variableDeclarations, r ∈ (planVariableDeclaration lines n).replace) ∨
    (∃ n ∈ pf.arrowFunctions, r ∈ (planArrowFunction lines n).replace) ∨
    (∃ n ∈ pf.functionExpressions, r ∈ (planFunctionExpression lines n).replace) := by
  unfold planEdits at h
  simp only [EditPlan.append, List.mem_append] at h
  rcases h with ((((((((h | h) | h) | h) | h) | h) | h) | h) | h) | h <;>
    first
      | exact Or.inl (mem_planList_replace h)
      | exact Or.inr (Or.inl (mem_planList_replace h))
      | exact Or.inr (Or.inr (Or.inl (mem_planList_replace h)))
      | exact Or.inr (Or.inr (Or.inr (Or.inl (mem_planList_replace h))))
      | exact Or.inr (Or.inr (Or.inr (Or.inr (Or.inl (mem_planList_replace h)))))
      | exact Or.inr (Or.inr (Or.inr (Or.inr (Or.inr (Or.inl (mem_planList_replace h))))))
      | exact Or.inr (Or.inr (Or.inr (Or.inr (Or.inr (Or.inr (Or.inl
          (mem_planList_replace h)))))))
      | exact Or.inr (Or.inr (Or.inr (Or.inr (Or.inr (Or.inr (Or.inr (Or.inl
          (mem_planList_replace h))))))))
      | exact Or.inr (Or.inr (Or.inr (Or.inr (Or.inr (Or.inr (Or.inr (Or.inr (Or.inl
          (mem_planList_replace h)))))))))
      | exact Or.inr (Or.inr (Or.inr (Or.inr (Or.inr (Or.inr (Or.inr (Or.inr (Or.inr
          (mem_planList_replace h)))))))))

/-- Case decomposition of a planned inline edit over the ten loops. -/
theorem planEdits_inline_cases {pf : ParsedFile} {lines : List JStr} {e : InlineEdit}
    (h : e ∈ (planEdits pf lines).inline) :
    (∃ n ∈ pf.functionDeclarations, e ∈ (planFunctionDeclaration lines n).inline) ∨
    (∃ n ∈ pf.methodDeclarations, e ∈ (planClassMember lines n).inline) ∨
    (∃ n ∈ pf.constructors, e ∈ (planClassMember lines n).inline) ∨
    (∃ n ∈ pf.getAccessors, e ∈ (planClassMember lines n).inline) ∨
    (∃ n ∈ pf.setAccessors, e ∈ (planClassMember lines n).inline) ∨
    (∃ n ∈ pf.propertyDeclarations, e ∈ (planPropertyDeclaration lines n).inline) ∨
    (∃ n ∈ pf.exportAssignments, e ∈ (planExportAssignment lines n).inline) ∨
    (∃ n ∈ pf.variableDeclarations, e ∈ (planVariableDeclaration lines n).inline) ∨
    (∃ n ∈ pf.arrowFunctions, e ∈ (planArrowFunction lines n).inline) ∨
    (∃ n ∈ pf.functionExpressions, e ∈ (planFunctionExpression lines n).inline) := by
  unfold planEdits at h
  simp only [EditPlan.append, List.mem_append] at h
  rcases h with ((((((((h | h) | h) | h) | h) | h) | h) | h) | h) | h <;>
    first
      | exact Or.inl (mem_planList_inline h)
      | exact Or.inr (Or.inl (mem_planList_inline h))
      | exact Or.inr (Or.inr (Or.inl (mem_planList_inline h)))
      | exact Or.inr (Or.inr (Or.inr (Or.inl (mem_planList_inline h))))
      | exact Or.inr (Or.inr (Or.inr (Or.inr (Or.inl (mem_planList_inline h)))))
      | exact Or.inr (Or.inr (Or.inr (Or.inr (Or.inr (Or.inl (mem_planList_inline h))))))
      | exact Or.inr (Or.inr (Or.inr (Or.inr (Or.inr (Or.inr (Or.inl
          (mem_planList_inline h)))))))
      | exact Or.inr (Or.inr (Or.inr (Or.inr (Or.inr (Or.inr (Or.inr (Or.inl
          (mem_planList_inline h))))))))
      | exact Or.inr (Or.inr (Or.inr (Or.inr (Or.inr (Or.inr (Or.inr (Or.inr (Or.inl
          (mem_planList_inline h)))))))))
      | exact Or.inr (Or.inr (Or.inr (Or.inr (Or.inr (Or.inr (Or.inr (Or.inr (Or.inr
          (mem_planList_inline h)))))))))

theorem planFunctionDeclaration_replace_noNewline {lines : List JStr}
    {n : FunctionDeclarationNode} (hl : noNewlineLines lines) :
    ∀ r ∈ (planFunctionDeclaration lines n).replace, '\n' ∉ r.text := by
  intro r h
  unfold planFunctionDeclaration at h
  split at h
  · simp [EditPlan.empty] at h
  · rcases hb : n.body with _ | body <;> rw [hb] at h
    · simp [EditPlan.empty] at h
    · exact redactBlock_replace_noNewline hl r h

theorem planClassMember_replace_noNewline {lines : List JStr} {n : ClassMemberNode}
    (hl : noNewlineLines lines) :
    ∀ r ∈ (planClassMember lines n).replace, '\n' ∉ r.text := by
  intro r h
  unfold planClassMember at h
  split at h
  · simp [EditPlan.empty] at h
  · rcases hb : n.body with _ | body <;> rw [hb] at h
    · simp [EditPlan.empty] at h
    · exact redactBlock_replace_noNewline hl r h

theorem planPropertyDeclaration_replace_noNewline {lines : List JStr}
    {n : PropertyDeclarationNode} (hl : noNewlineLines lines) :
    ∀ r ∈ (planPropertyDeclaration lines n).replace, '\n' ∉ r.text := by
  intro r h
  unfold planPropertyDeclaration at h
  split at h
  · simp [EditPlan.empty] at h
  · rcases hinit : n.initEnd with _ | initEnd <;> rw [hinit] at h
    · simp [EditPlan.empty] at h
    · exact redactInitializer_replace_noNewline hl r h

theorem planExportAssignment_replace_noNewline {lines : List JStr}
    {n : ExportAssignmentNode} (hl : noNewlineLines lines) :
    ∀ r ∈ (planExportAssignment lines n).replace, '\n' ∉ r.text := by
  intro r h
  unfold planExportAssignment at h
  rcases he : n.expr with _ | expr <;> rw [he] at h
  · simp [EditPlan.empty] at h
  · rcases expr with ⟨_ | block, span⟩ | ⟨_ | block⟩ | _
    · rw [redactExpression_replace] at h
      simp at h
    · exact redactBlock_replace_noNewline hl r h
    · simp [EditPlan.empty] at h
    · exact redactBlock_replace_noNewline hl r h
    · simp [EditPlan.empty] at h

theorem planVariableDeclaration_replace_noNewline {lines : List JStr}
    {n : VariableDeclarationNode} (hl : noNewlineLines lines) :
    ∀ r ∈ (planVariableDeclaration lines n).replace, '\n' ∉ r.text := by
  intro r h
  unfold planVariableDeclaration at h
  rcases hinit : n.initEnd with _ | initEnd <;> rw [hinit] at h
  · simp [EditPlan.empty] at h
  · dsimp only at h
    split at h
    · simp [EditPlan.empty] at h
    · exact redactVariableInitializer_replace_noNewline hl r h

theorem planArrowFunction_replace_noNewline {lines : List JStr} {n : ArrowFunctionNode}
    (hl : noNewlineLines lines) :
    ∀ r ∈ (planArrowFunction lines n).replace, '\n' ∉ r.text := by
  intro r h
  unfold planArrowFunction at h
  split at h
  · simp [EditPlan.empty] at h
  · rcases hb : n.body with body | e <;> rw [hb] at h
    · exact redactBlock_replace_noNewline hl r h
    · rw [redactExpression_replace] at h
      simp at h

theorem planFunctionExpression_replace_noNewline {lines : List JStr}
    {n : FunctionExpressionNode} (hl : noNewlineLines lines) :
    ∀ r ∈ (planFunctionExpression lines n).replace, '\n' ∉ r.text := by
  intro r h
  unfold planFunctionExpression at h
  split at h
  · simp [EditPlan.empty] at h
  · rcases hb : n.body with _ | body <;> rw [hb] at h
    · simp [EditPlan.empty] at h
    · exact redactBlock_replace_noNewline hl r h

theorem planEdits_replace_noNewline (pf : ParsedFile) {lines : List JStr}
    (hl : noNewlineLines lines) :
    ∀ r ∈ (planEdits pf lines).replace, '\n' ∉ r.text := by
  intro r h
  rcases planEdits_replace_cases h with
    ⟨n, _, h⟩ | ⟨n, _, h⟩ | ⟨n, _, h⟩ | ⟨n, _, h⟩ | ⟨n, _, h⟩ | ⟨n, _, h⟩ | ⟨n, _, h⟩ |
      ⟨n, _, h⟩ | ⟨n, _, h⟩ | ⟨n, _, h⟩
  · exact planFunctionDeclaration_replace_noNewline hl r h
  · exact planClassMember_replace_noNewline hl r h
  · exact planClassMember_replace_noNewline hl r h
  · exact planClassMember_replace_noNewline hl r h
  · exact planClassMember_replace_noNewline hl r h
  · exact planPropertyDeclaration_replace_noNewline hl r h
  · exact planExportAssignment_replace_noNewline hl r h
  · exact planVariableDeclaration_replace_noNewline hl r h
  · exact planArrowFunction_replace_noNewline hl r h
  · exact planFunctionExpression_replace_noNewline hl r h

theorem planFunctionDeclaration_inline_noNewline {lines : List JStr}
    {n : FunctionDeclarationNode} :
    ∀ e ∈ (planFunctionDeclaration lines n).inline, '\n' ∉ e.text := by
  intro e h
  unfold planFunctionDeclaration at h
  split at h
  · simp [EditPlan.empty] at h
  · rcases hb : n.body with _ | body <;> rw [hb] at h
    · simp [EditPlan.empty] at h
    · exact redactBlock_inline_noNewline e h

theorem planClassMember_inline_noNewline {lines : List JStr} {n : ClassMemberNode} :
    ∀ e ∈ (planClassMember lines n).inline, '\n' ∉ e.text := by
  intro e h
  unfold planClassMember at h
  split at h
  · simp [EditPlan.empty] at h
  · rcases hb : n.body with _ | body <;> rw [hb] at h
    · simp [EditPlan.empty] at h
    · exact redactBlock_inline_noNewline e h

theorem planPropertyDeclaration_inline_noNewline {lines : List JStr}
    {n : PropertyDeclarationNode} :
    ∀ e ∈ (planPropertyDeclaration lines n).inline, '\n' ∉ e.text := by
  intro e h
  unfold planPropertyDeclaration at h
  split at h
  · simp [EditPlan.empty] at h
  · rcases hinit : n.initEnd with _ | initEnd <;> rw [hinit] at h
    · simp [EditPlan.empty] at h
    · exact redactInitializer_inline_noNewline e h

theorem planExportAssignment_inline_noNewline {lines : List JStr}
    {n : ExportAssignmentNode} :
    ∀ e ∈ (planExportAssignment lines n).inline, '\n' ∉ e.text := by
  intro e h
  unfold planExportAssignment at h
  rcases he : n.expr with _ | expr <;> rw [he] at h
  · simp [EditPlan.empty] at h
  · rcases expr with ⟨_ | block, span⟩ | ⟨_ | block⟩ | _
    · exact redactExpression_inline_noNewline e h
    · exact redactBlock_inline_noNewline e h
    · simp [EditPlan.empty] at h
    · exact redactBlock_inline_noNewline e h
    · simp [EditPlan.empty] at h

theorem planVariableDeclaration_inline_noNewline {lines : List JStr}
    {n : VariableDeclarationNode} :
    ∀ e ∈ (planVariableDeclaration lines n).inline, '\n' ∉ e.text := by
  intro e h
  unfold planVariableDeclaration at h
  rcases hinit : n.initEnd with _ | initEnd <;> rw [hinit] at h
  · simp [EditPlan.empty] at h
  · dsimp only at h
    split at h
    · simp [EditPlan.empty] at h
    · exact redactVariableInitializer_inline_noNewline e h

theorem planArrowFunction_inline_noNewline {lines : List JStr} {n : ArrowFunctionNode} :
    ∀ e ∈ (planArrowFunction lines n).inline, '\n' ∉ e.text := by
  intro e h
  unfold planArrowFunction at h
  split at h
  · simp [EditPlan.empty] at h
  · rcases hb : n.body with body | ex <;> rw [hb] at h
    · exact redactBlock_inline_noNewline e h
    · exact redactExpression_inline_noNewline e h

theorem planFunctionExpression_inline_noNewline {lines : List JStr}
    {n : FunctionExpressionNode} :
    ∀ e ∈ (planFunctionExpression lines n).inline, '\n' ∉ e.text := by
  intro e h
  unfold planFunctionExpression at h
  split at h
  · simp [EditPlan.empty] at h
  · rcases hb : n.body with _ | body <;> rw [hb] at h
    · simp [EditPlan.empty] at h
    · exact redactBlock_inline_noNewline e h

theorem planEdits_inline_noNewline (pf : ParsedFile) (lines : List JStr) :
    ∀ e ∈ (planEdits pf lines).inline, '\n' ∉ e.text := by
  intro e h
  rcases planEdits_inline_cases h with
    ⟨n, _, h⟩ | ⟨n, _, h⟩ | ⟨n, _, h⟩ | ⟨n, _, h⟩ | ⟨n, _, h⟩ | ⟨n, _, h⟩ | ⟨n, _, h⟩ |
      ⟨n, _, h⟩ | ⟨n, _, h⟩ | ⟨n, _, h⟩
  · exact planFunctionDeclaration_inline_noNewline e h
  · exact planClassMember_inline_noNewline e h
  · exact planClassMember_inline_noNewline e h
  · exact planClassMember_inline_noNewline e h
  · exact planClassMember_inline_noNewline e h
  · exact planPropertyDeclaration_inline_noNewline e h
  · exact planExportAssignment_inline_noNewline e h
  · exact planVariableDeclaration_inline_noNewline e h
  · exact planArrowFunction_inline_noNewline e h
  · exact planFunctionExpression_inline_noNewline e h

/-- C1: for every parsed file, text and optional window, the text
`redactFile` returns has exactly as many lines as the input text. -/
theorem redactFile_preserves_lineCount (pf : ParsedFile) (text : JStr)
    (window : Option LineWindow) :
    lineCount (redactFile pf text window) = lineCount text := by
  unfold redactFile lineCount
  dsimp only
  have hnl : noNewlineLines (splitLines text) := noNewline_splitLines text
  have hlen : (applyEdits (splitLines text) (planEdits pf (splitLines text)).inline
      (planEdits pf (splitLines text)).replace (planEdits pf (splitLines text)).blocks
      window).length = (splitLines text).length :=
    applyEdits_length _ _ _ _ _ (planEdits_blocks_line_eq_start pf (splitLines text))
  have hout_nl : noNewlineLines (applyEdits (splitLines text)
      (planEdits pf (splitLines text)).inline (planEdits pf (splitLines text)).replace
      (planEdits pf (splitLines text)).blocks window) :=
    applyEdits_noNewline _ _ _ _ _ hnl (planEdits_replace_noNewline pf hnl)
      (planEdits_inline_noNewline pf (splitLines text))
  have hout_ne : applyEdits (splitLines text) (planEdits pf (splitLines text)).inline
      (planEdits pf (splitLines text)).replace (planEdits pf (splitLines text)).blocks
      window ≠ [] := by
    intro h
    rw [h] at hlen
    exact splitLines_ne_nil text (List.length_eq_zero.mp hlen.symm)
  rw [splitLines_joinLines hout_ne hout_nl, hlen]

/-- C2 (evaluation at the failing inputs): on a file whose only
declaration is the non-exported top-level function `privateHelper`, and
on a file whose only member is a private method of an exported class,
`redactFile` returns the text unchanged — the declarations are not
collapsed to a marker line, nor hidden in any way, although the
repository's own tests and README require them to be. -/
theorem redactFile_c2_nonexported_left_intact :
    redactFile c2File c2Text none = c2Text ∧
      redactFile c2bFile c2bText none = c2bText := by
  decide

/-- C5: the blocks `applyEdits` processes are ordered by priority
descending, ties by start line ascending (`blockLE`); the accepted blocks
are pairwise non-overlapping; and a block that overlaps an already
accepted one is dropped with no effect on the lines or on the accepted
list. -/
theorem applyEdits_accepted_blocks_disjoint :
    (∀ (blocks : List BlockEdit) (lines : List JStr) (window : Option LineWindow),
      List.Pairwise (fun a b => blockLE a b = true)
        (stableSort blockLE (blocks.filter fun block =>
          decide ((window.getD ⟨1, lines.length⟩).start ≤ block.«end») &&
            decide (block.start ≤ (window.getD ⟨1, lines.length⟩).«end»))) ∧
      List.Pairwise (fun a b => rangesOverlap a b = false)
        (((stableSort blockLE (blocks.filter fun block =>
          decide ((window.getD ⟨1, lines.length⟩).start ≤ block.«end») &&
            decide (block.start ≤ (window.getD ⟨1, lines.length⟩).«end»))).foldl
              blockStep ([], lines)).1)) ∧
    ∀ (applied : List BlockEdit) (ls : List JStr) (b : BlockEdit),
      (applied.any fun a => rangesOverlap a b) = true →
      blockStep (applied, ls) b = (applied, ls) := by
  refine ⟨fun blocks lines window => ⟨?_, ?_⟩, fun applied ls b h => ?_⟩
  · exact pairwise_stableSort blockLE blockLE_total blockLE_trans _
  · exact foldl_blockStep_pairwise _ ([], lines) List.Pairwise.nil
  · unfold blockStep
    dsimp only
    rw [h]
    rfl

theorem applyEdits_accepted_blocks_disjoint_witness :
    blockStep ([BlockEdit.mk 1 3 1 3], [[]]) (BlockEdit.mk 2 4 2 1)
      = ([BlockEdit.mk 1 3 1 3], [[]]) :=
  applyEdits_accepted_blocks_disjoint.2 [BlockEdit.mk 1 3 1 3] [[]]
    (BlockEdit.mk 2 4 2 1) (by decide)

/-- C6 counterexample: an exported class property with a multi-line
initializer is planned as a block of priority 3, where the claim says
exported-property initializers get priority 2. -/
theorem planEdits_c6_property_priority_is_three :
    (planEdits c6File (splitLines c6Text)).blocks = [BlockEdit.mk 3 3 3 3] ∧
      (BlockEdit.mk 3 3 3 3).priority ≠ 2 := by
  decide

/-- C6 amended: the planner's priorities per selection loop: exported
function/method/constructor/accessor bodies, exported class-property
initializers and default-export bodies/expressions get 3;
exported-variable initializers and function-expression bodies assigned to
exported variables get 2; arrow-function bodies (and expression bodies)
assigned to exported variables get 1.  (No whole-declaration collapse
exists anywhere in the planner.) -/
theorem planEdits_loop_priorities (pf : ParsedFile) (lines : List JStr) :
    (∀ b ∈ (planList (planFunctionDeclaration lines) pf.functionDeclarations).blocks,
      b.priority = 3) ∧
    (∀ b ∈ (planList (planClassMember lines) pf.methodDeclarations).blocks,
      b.priority = 3) ∧
    (∀ b ∈ (planList (planClassMember lines) pf.constructors).blocks, b.priority = 3) ∧
    (∀ b ∈ (planList (planClassMember lines) pf.getAccessors).blocks, b.priority = 3) ∧
    (∀ b ∈ (planList (planClassMember lines) pf.setAccessors).blocks, b.priority = 3) ∧
    (∀ b ∈ (planList (planPropertyDeclaration lines) pf.propertyDeclarations).blocks,
      b.priority = 3) ∧
    (∀ b ∈ (planList (planExportAssignment lines) pf.exportAssignments).blocks,
      b.priority = 3) ∧
    (∀ b ∈ (planList (planVariableDeclaration lines) pf.variableDeclarations).blocks,
      b.priority = 2) ∧
    (∀ b ∈ (planList (planArrowFunction lines) pf.arrowFunctions).blocks,
      b.priority = 1) ∧
    (∀ b ∈ (planList (planFunctionExpression lines) pf.functionExpressions).blocks,
      b.priority = 2) := by
  refine ⟨fun b h => ?_, fun b h => ?_, fun b h => ?_, fun b h => ?_, fun b h => ?_,
    fun b h => ?_, fun b h => ?_, fun b h => ?_, fun b h => ?_, fun b h => ?_⟩ <;>
    obtain ⟨n, _, h⟩ := mem_planList_blocks h
  · exact (planFunctionDeclaration_blocks h).2
  · exact (planClassMember_blocks h).2
  · exact (planClassMember_blocks h).2
  · exact (planClassMember_blocks h).2
  · exact (planClassMember_blocks h).2
  · exact (planPropertyDeclaration_blocks h).2
  · exact (planExportAssignment_blocks h).2
  · exact (planVariableDeclaration_blocks h).2
  · exact (planArrowFunction_blocks h).2
  · exact (planFunctionExpression_blocks h).2

theorem planEdits_loop_priorities_witness : (BlockEdit.mk 3 3 3 3).priority = 3 :=
  (planEdits_loop_priorities c6File (splitLines c6Text)).2.2.2.2.2.1
    (BlockEdit.mk 3 3 3 3) (by decide)

/-- C10: the edit applier is safe at the array boundaries: an accepted
block whose range is inverted or partly outside `[1, lineCount]` mutates
no line while still being recorded as accepted; a line replace or an
inline group whose line is outside `[1, lineCount]` is skipped; and for
planned edits (whose blocks anchor at their start line) `applyEdits`
never writes out of bounds, so the line count is preserved. -/
theorem applyEdits_bounds_safe :
    (∀ (applied : List BlockEdit) (lines : List JStr) (b : BlockEdit),
      (applied.any fun a => rangesOverlap a b) = false →
      (b.«end» < b.start ∨ b.start < 1 ∨ lines.length < b.«end») →
      blockStep (applied, lines) b = (applied ++ [b], lines)) ∧
    (∀ (w : LineWindow) (lines : List JStr) (item : LineEdit),
      (item.line < 1 ∨ lines.length < item.line) → replaceStep w lines item = lines) ∧
    (∀ (lines : List JStr) (items : List InlineEdit) (line : Nat),
      (line < 1 ∨ lines.length < line) → inlineLineStep lines items line = lines) ∧
    (∀ (lines : List JStr) (inline : List InlineEdit) (replace : List LineEdit)
      (blocks : List BlockEdit) (window : Option LineWindow),
      (∀ b ∈ blocks, b.line = b.start) →
      (applyEdits lines inline replace blocks window).length = lines.length) := by
  refine ⟨fun applied lines b hany hbad => ?_, fun w lines item hbad => ?_,
    fun lines items line hbad => ?_,
    fun lines inline replace blocks window h => applyEdits_length _ _ _ _ _ h⟩
  · unfold blockStep
    dsimp only
    rw [hany]
    simp only [Bool.false_eq_true, if_false]
    by_cases h1 : b.«end» < b.start
    · rw [if_pos h1]
    · rw [if_neg h1, if_pos]
      rw [Bool.or_eq_true]
      simp only [decide_eq_true_eq]
      omega
  · unfold replaceStep
    rw [if_pos]
    rw [Bool.or_eq_true]
    simp only [decide_eq_true_eq]
    omega
  · unfold inlineLineStep
    rw [if_pos]
    rw [Bool.or_eq_true]
    simp only [decide_eq_true_eq]
    omega

theorem applyEdits_bounds_safe_witness :
    blockStep ([], [[]]) (BlockEdit.mk 5 2 5 1) = ([BlockEdit.mk 5 2 5 1], [[]]) ∧
    replaceStep (LineWindow.mk 1 1) [[]] (LineEdit.mk 9 []) = [[]] ∧
    inlineLineStep [[]] [] 0 = [[]] ∧
    (applyEdits [[]] [] [] [BlockEdit.mk 1 1 1 1] none).length = 1 :=
  ⟨applyEdits_bounds_safe.1 [] [[]] (BlockEdit.mk 5 2 5 1) (by decide) (by decide),
   applyEdits_bounds_safe.2.1 (LineWindow.mk 1 1) [[]] (LineEdit.mk 9 []) (by decide),
   applyEdits_bounds_safe.2.2.1 [[]] [] 0 (by decide),
   applyEdits_bounds_safe.2.2.2 [[]] [] [] [BlockEdit.mk 1 1 1 1] none (by decide)⟩

/-- C3 counterexample: with the six-line `winText` (exported function
body on lines 1–5, planned block over lines 2–4) and window `[4, 6]`,
line 2 of the output — outside the window — is rewritten to the marker
line: a BlockEdit that merely intersects the window is applied in full. -/
theorem redactFile_c3_window_counterexample :
    (splitLines (redactFile winFile winText (some (LineWindow.mk 4 6)))).get? 1 =
      some ("  // implementation hidden".toList) ∧
    (splitLines winText).get? 1 = some ("  const a = 1".toList) ∧ (2 : Nat) < 4 := by
  decide

/-- C3 amended: outside the window no LineReplaceEdit and no InlineEdit
is ever applied, and an output line (1-based index `j + 1`) outside the
window can differ from the input only when it lies inside the span of
some planned BlockEdit that intersects the window (such a block is
applied in full). -/
theorem redactFile_window_frame (pf : ParsedFile) (text : JStr) (w : LineWindow) (j : Nat)
    (hout : j + 1 < w.start ∨ w.«end» < j + 1)
    (hblocks : ∀ b ∈ (planEdits pf (splitLines text)).blocks,
      (w.start ≤ b.«end» ∧ b.start ≤ w.«end») → ¬(b.start ≤ j + 1 ∧ j + 1 ≤ b.«end»)) :
    (splitLines (redactFile pf text (some w))).get? j = (splitLines text).get? j := by
  unfold redactFile
  dsimp only
  have hnl : noNewlineLines (splitLines text) := noNewline_splitLines text
  have hlen : (applyEdits (splitLines text) (planEdits pf (splitLines text)).inline
      (planEdits pf (splitLines text)).replace (planEdits pf (splitLines text)).blocks
      (some w)).length = (splitLines text).length :=
    applyEdits_length _ _ _ _ _ (planEdits_blocks_line_eq_start pf (splitLines text))
  have hout_nl : noNewlineLines (applyEdits (splitLines text)
      (planEdits pf (splitLines text)).inline (planEdits pf (splitLines text)).replace
      (planEdits pf (splitLines text)).blocks (some w)) :=
    applyEdits_noNewline _ _ _ _ _ hnl (planEdits_replace_noNewline pf hnl)
      (planEdits_inline_noNewline pf (splitLines text))
  have hout_ne : applyEdits (splitLines text) (planEdits pf (splitLines text)).inline
      (planEdits pf (splitLines text)).replace (planEdits pf (splitLines text)).blocks
      (some w) ≠ [] := by
    intro h
    rw [h] at hlen
    exact splitLines_ne_nil text (List.length_eq_zero.mp hlen.symm)
  rw [splitLines_joinLines hout_ne hout_nl]
  exact applyEdits_get?_outside_window _ _ _ _ _ _ hout
    (planEdits_blocks_line_eq_start pf (splitLines text)) hblocks

theorem redactFile_window_frame_witness :
    (splitLines (redactFile winFile winText (some (LineWindow.mk 4 6)))).get? 0 =
      (splitLines winText).get? 0 :=
  redactFile_window_frame winFile winText (LineWindow.mk 4 6) 0
    (by decide) (by decide)

/-- C4 counterexample: for the three-line body of `c4Text` (lines 1–3),
the closing-brace line (line 3) of the output still holds `\x7d` — it is
not made empty, contrary to the claim that every interior line up to and
including the closing-brace line becomes empty. -/
theorem redactFile_c4_closing_line_kept :
    (splitLines (redactFile c4File c4Text none)).get? 2 = some ("\x7d".toList) ∧
      ("\x7d".toList : JStr) ≠ [] := by
  decide

/-- The plan for a file holding one exported function with a body of
three or more lines: a single priority-3 block over the interior. -/
theorem planEdits_singleFunction (text : JStr) (body : BodySpan)
    (h3 : body.startLine + 2 ≤ body.endLine) :
    planEdits (singleFunctionFile body) (splitLines text) =
      ⟨[], [], [BlockEdit.mk (body.startLine + 1) (body.endLine - 1)
        (body.startLine + 1) 3]⟩ := by
  have h1 : ¬ body.startLine = body.endLine := by omega
  have h2 : ¬ body.startLine + 1 = body.endLine := by omega
  simp [planEdits, planList, planFunctionDeclaration, planClassMember,
    planPropertyDeclaration, planExportAssignment, planVariableDeclaration,
    planArrowFunction, planFunctionExpression, singleFunctionFile, ParsedFile.empty,
    EditPlan.append, EditPlan.empty, redactBlock, h1, h2]

/-- C4 amended: for an exported function whose body spans three or more
lines (opening line `startLine`, closing-brace line `endLine`),
`redactFile` leaves the opening line unchanged, rewrites line
`startLine + 1` to the original indentation followed by the line marker,
makes every line strictly between that line and the closing-brace line
empty, and leaves the closing-brace line itself unchanged (it keeps its
`\x7d`; it is not emptied). -/
theorem redactFile_block_shape (text : JStr) (body : BodySpan)
    (hs : 1 ≤ body.startLine) (h3 : body.startLine + 2 ≤ body.endLine)
    (hlen : body.endLine ≤ lineCount text) :
    (splitLines (redactFile (singleFunctionFile body) text none)).get?
        (body.startLine - 1) = (splitLines text).get? (body.startLine - 1) ∧
    (splitLines (redactFile (singleFunctionFile body) text none)).get? body.startLine =
      some (leadingWhitespace (jsGetLine (splitLines text) (body.startLine : Int)) ++
        hiddenLine) ∧
    (∀ i, body.startLine + 2 ≤ i → i + 1 ≤ body.endLine →
      (splitLines (redactFile (singleFunctionFile body) text none)).get? (i - 1)
        = some []) ∧
    (splitLines (redactFile (singleFunctionFile body) text none)).get?
        (body.endLine - 1) = (splitLines text).get? (body.endLine - 1) := by
  have hplan := planEdits_singleFunction text body h3
  have hnl : noNewlineLines (splitLines text) := noNewline_splitLines text
  set lines := splitLines text with hlines
  set b : BlockEdit :=
    BlockEdit.mk (body.startLine + 1) (body.endLine - 1) (body.startLine + 1) 3
  have hnoIR : ∀ (bs : List BlockEdit) (window : Option LineWindow),
      applyEdits lines [] [] bs window =
        ((stableSort blockLE (bs.filter fun block =>
          decide ((window.getD ⟨1, lines.length⟩).start ≤ block.«end») &&
            decide (block.start ≤ (window.getD ⟨1, lines.length⟩).«end»))).foldl
              blockStep ([], lines)).2 := by
    intro bs window
    unfold applyEdits
    dsimp only
    rw [List.foldl_nil]
    have h0 : ([] : List InlineEdit).length = 0 := rfl
    rw [if_pos h0]
  have happ : applyEdits lines [] [] [b] none =
      blankLines (jsSetLine lines ((b.line : Int) - 1)
        (leadingWhitespace (jsGetLine lines ((b.line : Int) - 1)) ++ hiddenLine))
        ((b.line : Int) + 1) (b.«end» : Int) := by
    rw [hnoIR [b] none]
    have hcond : (decide ((Option.getD none (LineWindow.mk 1 lines.length)).start ≤ b.«end») &&
        decide (b.start ≤ (Option.getD none (LineWindow.mk 1 lines.length)).«end»)) = true := by
      simp only [Bool.and_eq_true, decide_eq_true_eq]
      have hL : lineCount text = lines.length := rfl
      constructor
      · show 1 ≤ body.endLine - 1
        omega
      · show body.startLine + 1 ≤ lines.length
        omega
    rw [List.filter_cons, List.filter_nil, if_pos hcond]
    have hsort : stableSort blockLE [b] = [b] := rfl
    rw [hsort]
    have hstep : blockStep ([], lines) b =
        ([b], blankLines (jsSetLine lines ((b.line : Int) - 1)
          (leadingWhitespace (jsGetLine lines ((b.line : Int) - 1)) ++ hiddenLine))
          ((b.line : Int) + 1) (b.«end» : Int)) := by
      unfold blockStep
      dsimp only
      have h1 : ¬ (([] : List BlockEdit).any fun applied => rangesOverlap applied b) = true := by
        simp
      have h2 : ¬ (b.«end» < b.start) := by
        show ¬ (body.endLine - 1 < body.startLine + 1)
        omega
      have h3 : ¬ ((decide (b.start < 1) || decide (lines.length < b.«end»)) = true) := by
        simp only [Bool.or_eq_true, decide_eq_true_eq, not_or]
        have hL : lineCount text = lines.length := rfl
        constructor
        · show ¬ body.startLine + 1 < 1
          omega
        · show ¬ lines.length < body.endLine - 1
          omega
      rw [if_neg h1, if_neg h2, if_neg h3]
      rfl
    rw [List.foldl_cons, hstep, List.foldl_nil]
  have hred : redactFile (singleFunctionFile body) text none =
      joinLines (applyEdits lines [] [] [b] none) := by
    unfold redactFile
    dsimp only
    rw [← hlines, hplan]
  have hbl : ((b.line : Nat) : Int) - 1 = (body.startLine : Int) := by
    show ((body.startLine + 1 : Nat) : Int) - 1 = (body.startLine : Int)
    push_cast
    ring
  have hlenlines : body.endLine ≤ lines.length := hlen
  have hsetlen : (jsSetLine lines ((b.line : Int) - 1)
      (leadingWhitespace (jsGetLine lines ((b.line : Int) - 1)) ++ hiddenLine)).length
      = lines.length := by
    refine jsSetLine_length _ ?_
    rw [hbl]
    omega
  have hout_nl : noNewlineLines (applyEdits lines [] [] [b] none) := by
    rw [happ]
    refine blankLines_noNewline _ _ _ (jsSetLine_noNewline hnl ?_)
    intro hm
    rcases List.mem_append.mp hm with hm | hm
    · exact noNewline_leadingWhitespace (jsGetLine_noNewline hnl _) hm
    · exact noNewline_hiddenLine hm
  have hout_len : (applyEdits lines [] [] [b] none).length = lines.length := by
    rw [happ, blankLines_length _ _ _ (by push_cast; omega) (by rw [hsetlen]; push_cast; omega),
      hsetlen]
  have hout_ne : applyEdits lines [] [] [b] none ≠ [] := by
    intro h
    rw [h] at hout_len
    exact splitLines_ne_nil text (List.length_eq_zero.mp hout_len.symm)
  have hsplit : splitLines (redactFile (singleFunctionFile body) text none) =
      applyEdits lines [] [] [b] none := by
    rw [hred, splitLines_joinLines hout_ne hout_nl]
  refine ⟨?_, ?_, ?_, ?_⟩
  · rw [hsplit, happ,
      blankLines_get?_outside _ _ _ _ (by push_cast; omega)
        (by rw [hsetlen]; push_cast; omega) (by push_cast; omega),
      jsSetLine_get?_ne _ (by rw [hbl]; omega) (by rw [hbl]; omega)]
  · rw [hsplit, happ,
      blankLines_get?_outside _ _ _ _ (by push_cast; omega)
        (by rw [hsetlen]; push_cast; omega) (by push_cast; omega)]
    have hself := @jsSetLine_get?_self lines (((b.line : Nat) : Int) - 1)
      (leadingWhitespace (jsGetLine lines ((b.line : Int) - 1)) ++ hiddenLine)
      (by rw [hbl]; omega) (by rw [hbl]; omega)
    have htonat : (((b.line : Nat) : Int) - 1).toNat = body.startLine := by
      rw [hbl]
      omega
    rw [htonat] at hself
    rw [hself, hbl]
  · intro i hi1 hi2
    rw [hsplit, happ,
      blankLines_get?_inside _ _ _ _ (by push_cast; omega)
        (by rw [hsetlen]; push_cast; omega) ?_]
    constructor
    · show ((b.line : Nat) : Int) + 1 ≤ ((i - 1 : Nat) : Int) + 1
      push_cast [hbl]
      omega
    · show ((i - 1 : Nat) : Int) + 1 ≤ ((body.endLine - 1 : Nat) : Int)
      omega
  · rw [hsplit, happ,
      blankLines_get?_outside _ _ _ _ (by push_cast; omega)
        (by rw [hsetlen]; push_cast; omega) ?_,
      jsSetLine_get?_ne _ (by rw [hbl]; omega) (by rw [hbl]; omega)]
    right
    show ((b.«end» : Nat) : Int) < ((body.endLine - 1 : Nat) : Int) + 1
    push_cast
    omega

theorem redactFile_block_shape_witness :
    (splitLines (redactFile (singleFunctionFile ⟨1, 5, ⟨1, 22⟩, ⟨5, 1⟩⟩) winText none)).get? 0
        = (splitLines winText).get? 0 ∧
    (splitLines (redactFile (singleFunctionFile ⟨1, 5, ⟨1, 22⟩, ⟨5, 1⟩⟩) winText none)).get? 1
        = some (leadingWhitespace (jsGetLine (splitLines winText) 1) ++ hiddenLine) ∧
    (splitLines (redactFile (singleFunctionFile ⟨1, 5, ⟨1, 22⟩, ⟨5, 1⟩⟩) winText none)).get? 2
        = some [] ∧
    (splitLines (redactFile (singleFunctionFile ⟨1, 5, ⟨1, 22⟩, ⟨5, 1⟩⟩) winText none)).get? 4
        = (splitLines winText).get? 4 := by
  have h := redactFile_block_shape winText ⟨1, 5, ⟨1, 22⟩, ⟨5, 1⟩⟩
    (by decide) (by decide) (by decide)
  exact ⟨h.1, h.2.1, h.2.2.1 3 (by decide) (by decide), h.2.2.2⟩

/-- C8 counterexample: for the two-line body of `braceText`, whose
opening line holds a default-parameter `\x7b\x7d` before the body's
opening brace, the planner inserts the marker after the FIRST `\x7b` of
the line — inside the parameter list — not immediately after the body's
opening brace (column 27), so the planned line differs from the line the
claim requires. -/
theorem redactFile_c8_marker_after_first_brace :
    (planEdits braceFile (splitLines braceText)).replace =
      [LineEdit.mk 1 ("export function f(a = \x7b // implementation hidden\x7d) \x7b".toList)] ∧
    (splitLines (redactFile braceFile braceText none)).get? 0 =
      some ("export function f(a = \x7b // implementation hidden\x7d) \x7b".toList) ∧
    ("export function f(a = \x7b // implementation hidden\x7d) \x7b".toList : JStr) ≠
      "export function f(a = \x7b\x7d) \x7b // implementation hidden".toList := by
  decide

/-- C8 amended: for a body spanning exactly two lines, the planner emits
exactly one LineReplaceEdit, on the opening line, whose text inserts
` // implementation hidden` immediately after the FIRST `\x7b` on that
line (or appends it at the end of the line when the line holds no
`\x7b`); `redactFile` rewrites the opening line to that text and leaves
the closing line untouched.  The inserted marker lands after the body's
opening brace only when no earlier `\x7b` occurs on the line. -/
theorem redactFile_twoLine_body (text : JStr) (body : BodySpan)
    (hs : 1 ≤ body.startLine) (h2 : body.startLine + 1 = body.endLine)
    (hlen : body.endLine ≤ lineCount text) :
    planEdits (singleFunctionFile body) (splitLines text) =
      ⟨[], [LineEdit.mk body.startLine
        (match jsIndexOfChar '\x7b'
            (jsGetLine (splitLines text) ((body.startLine : Int) - 1)) with
          | none => jsGetLine (splitLines text) ((body.startLine : Int) - 1) ++
              ' ' :: hiddenLine
          | some braceIndex =>
              (jsGetLine (splitLines text) ((body.startLine : Int) - 1)).take
                  (braceIndex + 1) ++ ' ' :: hiddenLine ++
                (jsGetLine (splitLines text) ((body.startLine : Int) - 1)).drop
                  (braceIndex + 1))], []⟩ ∧
    (splitLines (redactFile (singleFunctionFile body) text none)).get?
        (body.startLine - 1) =
      some (match jsIndexOfChar '\x7b'
            (jsGetLine (splitLines text) ((body.startLine : Int) - 1)) with
          | none => jsGetLine (splitLines text) ((body.startLine : Int) - 1) ++
              ' ' :: hiddenLine
          | some braceIndex =>
              (jsGetLine (splitLines text) ((body.startLine : Int) - 1)).take
                  (braceIndex + 1) ++ ' ' :: hiddenLine ++
                (jsGetLine (splitLines text) ((body.startLine : Int) - 1)).drop
                  (braceIndex + 1)) ∧
    (splitLines (redactFile (singleFunctionFile body) text none)).get?
        (body.endLine - 1) = (splitLines text).get? (body.endLine - 1) := by
  have hnl : noNewlineLines (splitLines text) := noNewline_splitLines text
  set lines := splitLines text with hlines
  set insert : JStr :=
    (match jsIndexOfChar '\x7b' (jsGetLine lines ((body.startLine : Int) - 1)) with
      | none => jsGetLine lines ((body.startLine : Int) - 1) ++ ' ' :: hiddenLine
      | some braceIndex =>
          (jsGetLine lines ((body.startLine : Int) - 1)).take (braceIndex + 1) ++
            ' ' :: hiddenLine ++
            (jsGetLine lines ((body.startLine : Int) - 1)).drop (braceIndex + 1))
    with hinsert
  have hinsert_nl : '\n' ∉ insert := by
    rw [hinsert]
    have hline := jsGetLine_noNewline hnl ((body.startLine : Int) - 1)
    cases jsIndexOfChar '\x7b' (jsGetLine lines ((body.startLine : Int) - 1)) with
    | none =>
      dsimp only
      intro hm
      rcases List.mem_append.mp hm with hm | hm
      · exact hline hm
      · rcases List.mem_cons.mp hm with hm | hm
        · exact absurd hm.symm (by decide)
        · exact noNewline_hiddenLine hm
    | some braceIndex =>
      dsimp only
      intro hm
      rcases List.mem_append.mp hm with hm | hm
      · rcases List.mem_append.mp hm with hm | hm
        · exact noNewline_take hline _ hm
        · rcases List.mem_cons.mp hm with hm | hm
          · exact absurd hm.symm (by decide)
          · exact noNewline_hiddenLine hm
      · exact noNewline_drop hline _ hm
  have hplan : planEdits (singleFunctionFile body) lines =
      ⟨[], [LineEdit.mk body.startLine insert], []⟩ := by
    have h1 : ¬ body.startLine = body.endLine := by omega
    simp [planEdits, planList, planFunctionDeclaration, planClassMember,
      planPropertyDeclaration, planExportAssignment, planVariableDeclaration,
      planArrowFunction, planFunctionExpression, singleFunctionFile, ParsedFile.empty,
      EditPlan.append, EditPlan.empty, redactBlock, h1, h2, hinsert]
  have happly : applyEdits lines [] [LineEdit.mk body.startLine insert] [] none =
      jsSetLine lines ((body.startLine : Int) - 1) insert := by
    have hbase : applyEdits lines [] [LineEdit.mk body.startLine insert] [] none =
        replaceStep (Option.getD none (LineWindow.mk 1 lines.length)) lines
          (LineEdit.mk body.startLine insert) := rfl
    rw [hbase]
    unfold replaceStep
    have hL : lineCount text = lines.length := rfl
    rw [if_neg, if_neg]
    · simp only [Bool.or_eq_true, decide_eq_true_eq, not_or]
      constructor
      · show ¬ body.startLine < (Option.getD none (LineWindow.mk 1 lines.length)).start
        show ¬ body.startLine < 1
        omega
      · show ¬ (Option.getD none (LineWindow.mk 1 lines.length)).«end» < body.startLine
        show ¬ lines.length < body.startLine
        omega
    · simp only [Bool.or_eq_true, decide_eq_true_eq, not_or]
      constructor
      · show ¬ body.startLine < 1
        omega
      · show ¬ lines.length < body.startLine
        omega
  have hset_len : (jsSetLine lines ((body.startLine : Int) - 1) insert).length
      = lines.length := jsSetLine_length _ (by
        have hL : lineCount text = lines.length := rfl
        omega)
  have hout_nl : noNewlineLines (jsSetLine lines ((body.startLine : Int) - 1) insert) :=
    jsSetLine_noNewline hnl hinsert_nl
  have hout_ne : jsSetLine lines ((body.startLine : Int) - 1) insert ≠ [] := by
    intro h
    rw [h] at hset_len
    exact splitLines_ne_nil text (List.length_eq_zero.mp hset_len.symm)
  have hsplit : splitLines (redactFile (singleFunctionFile body) text none) =
      jsSetLine lines ((body.startLine : Int) - 1) insert := by
    unfold redactFile
    dsimp only
    rw [← hlines, hplan]
    dsimp only
    rw [happly, splitLines_joinLines hout_ne hout_nl]
  have hL : lineCount text = lines.length := rfl
  refine ⟨hplan, ?_, ?_⟩
  · rw [hsplit]
    have hself := @jsSetLine_get?_self lines ((body.startLine : Int) - 1)
      insert (by omega) (by omega)
    have htonat : ((body.startLine : Int) - 1).toNat = body.startLine - 1 := by omega
    rw [htonat] at hself
    exact hself
  · rw [hsplit, jsSetLine_get?_ne _ (by omega) (by omega)]

theorem redactFile_twoLine_body_witness :
    (splitLines (redactFile braceFile braceText none)).get? 0 =
      some (match jsIndexOfChar '\x7b'
            (jsGetLine (splitLines braceText) ((1 : Nat) - 1)) with
          | none => jsGetLine (splitLines braceText) ((1 : Nat) - 1) ++ ' ' :: hiddenLine
          | some braceIndex =>
              (jsGetLine (splitLines braceText) ((1 : Nat) - 1)).take (braceIndex + 1) ++
                ' ' :: hiddenLine ++
                (jsGetLine (splitLines braceText) ((1 : Nat) - 1)).drop (braceIndex + 1)) ∧
    (splitLines (redactFile braceFile braceText none)).get? 1 =
      (splitLines braceText).get? 1 := by
  have h := redactFile_twoLine_body braceText ⟨1, 2, ⟨1, 28⟩, ⟨2, 1⟩⟩
    (by decide) (by decide) (by decide)
  exact ⟨h.2.1, h.2.2⟩

theorem jsIndexOfChar_lt_length {c : Char} {s : JStr} {i : Nat}
    (h : jsIndexOfChar c s = some i) : i < s.length :=
  (List.findIdx?_eq_some_iff_findIdx_eq.mp h).1

/-- C9 counterexample: the declared signature of `braceText`'s function
(everything before the body's opening brace) occurs in the input but
nowhere in the output of `redactFile` — the two-line-body rewrite
inserted the marker after an earlier `\x7b` inside the parameter list,
altering the signature. -/
theorem redactFile_c9_signature_absent :
    jsIndexOfSub braceSignature braceText = some 0 ∧
    jsIndexOfSub braceSignature (redactFile braceFile braceText none) = none := by
  decide

/-- C9 amended: the planned rewrites keep the signature as a prefix
whenever the first `\x7b` on the opening line is the body's opening
brace: for a two-line body the rewritten opening line retains the
original line up to and including its first `\x7b` unchanged; for a body
of three or more lines the planner emits no line replace and no inline
edit at all and its block starts strictly after the opening line; and
for a multi-line initializer — of an exported class property
(`redactInitializer`) and of an exported variable
(`redactVariableInitializer`) alike — the rewritten assignment line
retains the original text before the `=`, up to trailing whitespace, as
its prefix. -/
theorem plannedEdits_preserve_signature :
    (∀ (body : BodySpan) (lines : List JStr) (priority : Nat) (bi : Nat),
      body.startLine + 1 = body.endLine →
      jsIndexOfChar '\x7b' (jsGetLine lines ((body.startLine : Int) - 1)) = some bi →
      ∀ r ∈ (redactBlock body lines priority).replace,
        r.text.take (bi + 1) =
          (jsGetLine lines ((body.startLine : Int) - 1)).take (bi + 1)) ∧
    (∀ (body : BodySpan) (lines : List JStr) (priority : Nat),
      body.startLine + 2 ≤ body.endLine →
      (redactBlock body lines priority).replace = [] ∧
      (redactBlock body lines priority).inline = [] ∧
      ∀ b ∈ (redactBlock body lines priority).blocks, body.startLine < b.start) ∧
    (∀ (node : PropertyDeclarationNode) (lines : List JStr) (priority : Nat)
      (eq initEnd : Pos),
      node.equalsPos = some eq → node.initEnd = some initEnd →
      ¬ eq.line = initEnd.line →
      ∀ r ∈ (redactInitializer node lines priority).replace, r.line = eq.line →
        r.text.take (jsTrimEnd ((jsGetLine lines ((eq.line : Int) - 1)).take
            (eq.column - 1))).length =
          jsTrimEnd ((jsGetLine lines ((eq.line : Int) - 1)).take (eq.column - 1))) ∧
    (∀ (node : VariableDeclarationNode) (lines : List JStr) (priority : Nat)
      (eq initEnd : Pos),
      node.equalsPos = some eq → node.initEnd = some initEnd →
      ¬ eq.line = initEnd.line →
      ∀ r ∈ (redactVariableInitializer node lines priority).replace, r.line = eq.line →
        r.text.take (jsTrimEnd ((jsGetLine lines ((eq.line : Int) - 1)).take
            (eq.column - 1))).length =
          jsTrimEnd ((jsGetLine lines ((eq.line : Int) - 1)).take (eq.column - 1))) := by
  refine ⟨?_, ?_, ?_, ?_⟩
  · intro body lines priority bi h2 hidx r hr
    unfold redactBlock at hr
    dsimp only at hr
    rw [if_neg (by omega), if_pos h2, hidx] at hr
    dsimp only at hr
    rw [List.mem_singleton.mp hr]
    dsimp only
    have hlt := jsIndexOfChar_lt_length hidx
    have hle : bi + 1 ≤
        (List.take (bi + 1) (jsGetLine lines ((body.startLine : Int) - 1))).length := by
      rw [List.length_take]
      omega
    rw [List.append_assoc, List.take_append_of_le_length hle, List.take_take, min_self]
  · intro body lines priority h3
    have hplan : redactBlock body lines priority =
        ⟨[], [], [⟨body.startLine + 1, body.endLine - 1, body.startLine + 1,
            priority⟩]⟩ := by
      unfold redactBlock
      dsimp only
      rw [if_neg (by omega), if_neg (by omega)]
    refine ⟨by rw [hplan], by rw [hplan], ?_⟩
    intro b hb
    exact (redactBlock_blocks hb).2.2
  · intro node lines priority eq initEnd heq hinit hne r hr hrline
    unfold redactInitializer at hr
    rw [hinit, heq] at hr
    dsimp only at hr
    rw [if_neg hne] at hr
    rcases List.mem_cons.mp hr with hr | hr
    · rw [hr]
      dsimp only
      exact List.take_left _ _
    · have hline : initEnd.line = eq.line := by
        rw [List.mem_singleton.mp hr] at hrline
        exact hrline
      exact absurd hline.symm hne
  · intro node lines priority eq initEnd heq hinit hne r hr hrline
    unfold redactVariableInitializer at hr
    rw [hinit, heq] at hr
    dsimp only at hr
    rw [if_neg hne] at hr
    rcases List.mem_cons.mp hr with hr | hr
    · rw [hr]
      dsimp only
      exact List.take_left _ _
    · have hline : initEnd.line = eq.line := by
        rw [List.mem_singleton.mp hr] at hrline
        exact hrline
      exact absurd hline.symm hne

theorem plannedEdits_preserve_signature_witness :
    ((LineEdit.mk 1
        ("export function f(a = \x7b // implementation hidden\x7d) \x7b".toList)).text.take
        (22 + 1) =
      (jsGetLine (splitLines braceText) ((1 : Nat) - 1)).take (22 + 1)) ∧
    ((LineEdit.mk 2 ("  items= /* implementation hidden */".toList)).text.take
        (jsTrimEnd ((jsGetLine (splitLines c6Text)
            (((2 : Nat) : Int) - 1)).take (9 - 1))).length =
      jsTrimEnd ((jsGetLine (splitLines c6Text)
          (((2 : Nat) : Int) - 1)).take (9 - 1))) := by
  have h1 := plannedEdits_preserve_signature.1 ⟨1, 2, ⟨1, 28⟩, ⟨2, 1⟩⟩
    (splitLines braceText) 3 22 (by decide) (by decide)
    (LineEdit.mk 1
      ("export function f(a = \x7b // implementation hidden\x7d) \x7b".toList))
    (by decide)
  have h2 := plannedEdits_preserve_signature.2.2.1
    ⟨some true, false, false, some ⟨4, 4⟩, some ⟨2, 9⟩⟩
    (splitLines c6Text) 3 ⟨2, 9⟩ ⟨4, 4⟩ (by decide) (by decide) (by decide)
    (LineEdit.mk 2 ("  items= /* implementation hidden */".toList))
    (by decide) (by decide)
  exact ⟨h1, h2⟩

/-- C7 counterexample: a wrapper whose section holds a digit-prefixed
line followed by a line with the digitless prefix `"| "`: the section and
its closing tag are present, prefixed lines are found, the file is
readable, and the integrity check does not fail — yet `redactOutput`
abstains, because deriving the window from the last prefix fails. -/
theorem redactOutput_c7_absent_without_listed_cause :
    redactOutput ParsedFile.empty (some c7Source) c7Output = none ∧
    (fileSectionOf c7Output).isSome = true ∧
    prefixedDataOf c7Output ≠ [] ∧
    integrityFails ParsedFile.empty (some c7Source) c7Output = false := by
  decide

/-- C7 amended: `redactOutput` abstains exactly when the bounded section
or its closing tag is missing, zero prefixed lines are found, the window
cannot be derived from the first and last prefix (a prefix with no
digits), the referenced file cannot be read, or the integrity check
fails; in every other case it returns a text. -/
theorem redactOutput_none_iff (pf : ParsedFile) (readResult : Option JStr)
    (output : JStr) :
    redactOutput pf readResult output = none ↔
      (fileSectionOf output = none ∨ prefixedDataOf output = [] ∨
        windowOf output = none ∨ readResult = none ∨
        integrityFails pf readResult output = true) := by
  unfold redactOutput
  cases h1 : jsIndexOfSub fileTag output with
  | none =>
    have hsec : fileSectionOf output = none := by
      unfold fileSectionOf
      rw [h1]
    simp [hsec]
  | some start =>
    dsimp only
    cases h2 : jsIndexOfSub fileCloseTag (output.drop (start + fileTag.length)) with
    | none =>
      have hsec : fileSectionOf output = none := by
        unfold fileSectionOf
        rw [h1]
        dsimp only
        rw [h2]
      simp [hsec]
    | some «end» =>
      dsimp only
      set sec : JStr := (output.drop (start + fileTag.length)).take «end» with hsecdef
      set data : List (JStr × JStr) := collectPrefixed (splitLines sec) with hdatadef
      set startPre : JStr := ((data.get? 0).map Prod.fst).getD [] with hspdef
      set endPre : JStr := ((data.get? (data.length - 1)).map Prod.fst).getD [] with hepdef
      have hsec : fileSectionOf output = some sec := by
        unfold fileSectionOf
        rw [h1]
        dsimp only
        rw [h2]
      have hdata : prefixedDataOf output = data := by
        unfold prefixedDataOf
        rw [hsec]
      by_cases h3 : data.length = 0
      · rw [if_pos h3]
        have hd0 : prefixedDataOf output = [] := by
          rw [hdata]
          exact List.length_eq_zero.mp h3
        simp [hd0]
      · rw [if_neg h3]
        have hwinif : windowOf output = lineWindow (some startPre) (some endPre) := by
          unfold windowOf
          rw [hsec]
          dsimp only
          rw [if_neg h3]
        have hsec_ne : ¬ fileSectionOf output = none := by
          rw [hsec]
          exact Option.some_ne_none _
        have hdata_ne : ¬ prefixedDataOf output = [] := by
          rw [hdata]
          intro h
          exact h3 (by rw [h]; rfl)
        cases h4 : lineWindow (some startPre) (some endPre) with
        | none =>
          have hwin : windowOf output = none := by rw [hwinif, h4]
          simp [hwin]
        | some window =>
          dsimp only
          have hwin : windowOf output = some window := by rw [hwinif, h4]
          cases readResult with
          | none => simp
          | some sourceText =>
            dsimp only
            have hint : integrityFails pf (some sourceText) output =
                (decide ((splitLines (redactFile pf sourceText (some window))).length <
                    window.«end») ||
                  decide ((jsArraySlice (splitLines (redactFile pf sourceText
                      (some window))) ((window.start : Int) - 1)
                      (window.«end» : Int)).length ≠ data.length)) := by
              unfold integrityFails
              rw [hwin]
              dsimp only
              rw [hdata]
            by_cases h5 : (splitLines (redactFile pf sourceText (some window))).length <
                window.«end»
            · rw [if_pos h5]
              have hi : integrityFails pf (some sourceText) output = true := by
                rw [hint]
                simp [h5]
              simp [hi]
            · rw [if_neg h5]
              by_cases h6 : (jsArraySlice (splitLines (redactFile pf sourceText
                  (some window))) ((window.start : Int) - 1)
                  (window.«end» : Int)).length ≠ data.length
              · rw [if_pos h6]
                have hi : integrityFails pf (some sourceText) output = true := by
                  rw [hint]
                  simp [h5, h6]
                simp [hi]
              · rw [if_neg h6]
                have hint_f : integrityFails pf (some sourceText) output = false := by
                  rw [hint]
                  simp [h5, h6]
                have hwin_ne : ¬ windowOf output = none := by
                  rw [hwin]
                  exact Option.some_ne_none _
                simp [hsec_ne, hdata_ne, hwin_ne, hint_f]

end Blackbox
